import Mathlib

/-!
Shallow embedding of the `whport` repository (Go): the lsof-output parser
(`internal/port/parser.go`), the process lifecycle manager
(`internal/process`), the snapshot/diff/history engine (`internal/history`)
and the interactive controller's filtered-view maintenance
(`internal/tui/app.go`), together with theorems about the recorded claims.

Go strings are modelled as `List Char` (`GoStr`); Go `int` as `Int` with the
64-bit range made explicit where `strconv` enforces it; Go maps as
association lists built by insert-or-overwrite in iteration order (Go map
iteration order is unspecified; every claim proved here is insensitive to
that order because `Diff` sorts its output and the other claims are about
key sets).
-/

namespace Whport

/-- A Go string, modelled as its list of characters. -/
abbrev GoStr := List Char

/-- Whitespace recognised by Go's `unicode.IsSpace` (the ASCII part plus
NEL and NBSP, which are the cases reachable from lsof/ps output). -/
def isGoSpace (c : Char) : Bool :=
  c = ' ' || c = '\t' || c = '\n' || c = '\x0b' || c = '\x0c' || c = '\r' ||
    c = '\x85' || c = '\xa0'

/-- Accumulator step for `goFields` (Go `strings.Fields`): split on runs of
whitespace. `acc` holds the current token reversed. -/
def goFieldsAux : GoStr → GoStr → List GoStr
  | acc, [] => if acc = [] then [] else [acc.reverse]
  | acc, c :: rest =>
    if isGoSpace c then
      if acc = [] then goFieldsAux [] rest else acc.reverse :: goFieldsAux [] rest
    else goFieldsAux (c :: acc) rest

/-- Go `strings.Fields`. -/
def goFields (s : GoStr) : List GoStr := goFieldsAux [] s

/-- Go `strings.TrimSpace`. -/
def goTrimSpace (s : GoStr) : GoStr :=
  ((s.dropWhile isGoSpace).reverse.dropWhile isGoSpace).reverse

/-- Go `strings.Split` on a one-character separator (always returns at least
one piece). `acc` holds the current piece reversed. -/
def goSplitAux (sep : Char) : GoStr → GoStr → List GoStr
  | acc, [] => [acc.reverse]
  | acc, c :: rest =>
    if c = sep then acc.reverse :: goSplitAux sep [] rest
    else goSplitAux sep (c :: acc) rest

/-- Go `strings.Split(s, string(sep))`. -/
def goSplitChar (s : GoStr) (sep : Char) : List GoStr := goSplitAux sep [] s

/-- Value of a list of decimal digit characters. -/
def digitsToNat (ds : GoStr) : Nat :=
  ds.foldl (fun n c => n * 10 + (c.toNat - 48)) 0

/-- Go `strconv.Atoi` (equivalently `strconv.ParseInt(s, 10, 64)` as used in
this code base): optional single sign, then one or more decimal digits, the
value required to fit in a signed 64-bit integer; anything else is an error
(`none`). -/
def goAtoi (s : GoStr) : Option Int :=
  match s with
  | [] => none
  | c :: rest =>
    let p : Bool × GoStr :=
      if c = '+' then (false, rest) else if c = '-' then (true, rest) else (false, s)
    let digits := p.2
    if digits = [] then none
    else if digits.all Char.isDigit then
      let v : Int := if p.1 then -(Int.ofNat (digitsToNat digits)) else Int.ofNat (digitsToNat digits)
      if v < -(2 ^ 63) ∨ 2 ^ 63 - 1 < v then none else some v
    else none

/-- Does `s` start with `pat`? (Go `strings.HasPrefix`.) -/
def goStarts : GoStr → GoStr → Bool
  | _, [] => true
  | [], _ :: _ => false
  | a :: as, b :: bs => a = b && goStarts as bs

/-- First index at which `pat` occurs in the string, counting from `i`. -/
def subIndexAux (pat : GoStr) : GoStr → Nat → Option Nat
  | [], i => if pat = [] then some i else none
  | c :: rest, i =>
    if goStarts (c :: rest) pat then some i else subIndexAux pat rest (i + 1)

/-- Go `strings.Index(s, pat)` (as an `Option` instead of -1). -/
def subIndex (s pat : GoStr) : Option Nat := subIndexAux pat s 0

/-- Go `strings.Contains`. -/
def goContainsSub (s pat : GoStr) : Bool := (subIndex s pat).isSome

/-- Go `strings.LastIndex(s, string(c))` for a one-character needle
(as an `Option` instead of -1). -/
def charLastIndex (s : GoStr) (c : Char) : Option Nat :=
  (s.reverse.findIdx? (fun x => x = c)).map (fun i => s.length - 1 - i)

/-- Go `strings.ToUpper` (ASCII cases, which are the only ones reaching it
here). -/
def goToUpper (s : GoStr) : GoStr := s.map Char.toUpper

/-- Go `strings.ToLower` (ASCII cases). -/
def goToLower (s : GoStr) : GoStr := s.map Char.toLower

/-- Byte-wise (here: character-wise) lexicographic `<` on Go strings. -/
def goStrLt : GoStr → GoStr → Bool
  | [], [] => false
  | [], _ :: _ => true
  | _ :: _, [] => false
  | a :: as, b :: bs => if a = b then goStrLt as bs else decide (a < b)

/-- Go `strings.Join(l, " ")`. -/
def goJoinSpace (l : List GoStr) : GoStr := (l.intersperse [' ']).flatten

/-- `port.PortEntry` (internal/port/types.go). -/
structure PortEntry where
  port : Int
  protocol : GoStr
  pid : Int
  process : GoStr
  user : GoStr
  command : GoStr
  state : GoStr
  fd : GoStr
deriving DecidableEq

/-- The `port.TCP` protocol constant. -/
def TCPStr : GoStr := "TCP".data

/-- The `port.UDP` protocol constant. -/
def UDPStr : GoStr := "UDP".data

/-- `history.EventOpen` ("open"). -/
def EventOpen : GoStr := "open".data

/-- `history.EventClose` ("close"). -/
def EventClose : GoStr := "close".data

/-- `history.Event`: timestamps are opaque to every claim, modelled as `Int`. -/
structure Event where
  timestamp : Int
  type : GoStr
  port : Int
  protocol : GoStr
  pid : Int
  process : GoStr
  user : GoStr
deriving DecidableEq

/-- `history.SnapshotEntry`. -/
structure SnapshotEntry where
  port : Int
  protocol : GoStr
  pid : Int
  process : GoStr
  user : GoStr
deriving DecidableEq

/-- `history.Snapshot`. -/
structure Snapshot where
  timestamp : Int
  entries : List SnapshotEntry
deriving DecidableEq

/-- `history.Data`: the persisted aggregate. -/
structure Data where
  lastSnapshot : Option Snapshot
  events : List Event
deriving DecidableEq

/-- `history.portKey`: `fmt.Sprintf("%d/%s", port, protocol)`. -/
def portKey (port : Int) (protocol : GoStr) : GoStr :=
  (toString port).data ++ '/' :: protocol

/-- `history.snapshotEntryKey`. -/
def snapshotEntryKey (e : SnapshotEntry) : GoStr := portKey e.port e.protocol

/-- Key of a current `PortEntry` as computed inside `history.Diff`
(`portKey(e.Port, string(e.Protocol))`). -/
def entryKey (e : PortEntry) : GoStr := portKey e.port e.protocol

/-- Go map insert (`m[k] = v`): overwrite the existing binding in place or
append a fresh one. The model keeps bindings in first-insertion order; Go
iterates maps in unspecified order, and every claim proved below is
insensitive to the order (see the header comment). -/
def upsert (m : List (GoStr × α)) (k : GoStr) (v : α) : List (GoStr × α) :=
  if m.any (fun p => p.1 = k) then
    m.map (fun p => if p.1 = k then (k, v) else p)
  else m ++ [(k, v)]

/-- Build a Go map from a list of insertions, later keys overwriting. -/
def buildMap (l : List (GoStr × α)) : List (GoStr × α) :=
  l.foldl (fun m kv => upsert m kv.1 kv.2) []

/-- Go map read `m[k]` (the `ok` part of `v, ok := m[k]`). -/
def mapLookup (m : List (GoStr × α)) (k : GoStr) : Option α :=
  (m.find? (fun p => p.1 = k)).map Prod.snd

/-- The open event built in `Diff`'s first loop. -/
def openEvent (ts : Int) (e : PortEntry) : Event :=
  { timestamp := ts, type := EventOpen, port := e.port, protocol := e.protocol,
    pid := e.pid, process := e.process, user := e.user }

/-- The close event built in `Diff`'s second loop. -/
def closeEvent (ts : Int) (e : SnapshotEntry) : Event :=
  { timestamp := ts, type := EventClose, port := e.port, protocol := e.protocol,
    pid := e.pid, process := e.process, user := e.user }

/-- The comparator passed to `sort.Slice` in `Diff`: ascending port, ties by
the event-type *string* (`events[i].Type < events[j].Type`). -/
def eventLess (a b : Event) : Bool :=
  if a.port ≠ b.port then decide (a.port < b.port) else goStrLt a.type b.type

/-- Insert `x` into `l` before the first element `y` with `le x y`. -/
def insertLe (le : α → α → Bool) (x : α) : List α → List α
  | [] => [x]
  | y :: ys => if le x y then x :: y :: ys else y :: insertLe le x ys

/-- Sort by the boolean relation `le`. Models Go's `sort.Slice`: the Go sort
is unstable and Go map iteration order feeding it is unspecified, so the
source only guarantees *a* permutation that is sorted for the comparator;
this is one. -/
def sortLe (le : α → α → Bool) : List α → List α
  | [] => []
  | x :: xs => insertLe le x (sortLe le xs)

/-- Entries of an optional previous snapshot (`prev == nil` contributes
nothing). -/
def prevEntriesOf : Option Snapshot → List SnapshotEntry
  | none => []
  | some s => s.entries

/-- The `prevMap` built by `history.Diff` from the previous snapshot. -/
def diffPrevMap (prev : Option Snapshot) : List (GoStr × SnapshotEntry) :=
  buildMap ((prevEntriesOf prev).map (fun e => (snapshotEntryKey e, e)))

/-- The `currMap` built by `history.Diff` from the current entries. -/
def diffCurrMap (current : List PortEntry) : List (GoStr × PortEntry) :=
  buildMap (current.map (fun e => (entryKey e, e)))

/-- `Diff`'s first loop: an open event for every key in current absent from
previous. -/
def diffOpens (prev : Option Snapshot) (current : List PortEntry) (ts : Int) : List Event :=
  ((diffCurrMap current).filter
      (fun kv => !(mapLookup (diffPrevMap prev) kv.1).isSome)).map
    (fun kv => openEvent ts kv.2)

/-- `Diff`'s second loop: a close event for every key in previous absent
from current. -/
def diffCloses (prev : Option Snapshot) (current : List PortEntry) (ts : Int) : List Event :=
  ((diffPrevMap prev).filter
      (fun kv => !(mapLookup (diffCurrMap current) kv.1).isSome)).map
    (fun kv => closeEvent ts kv.2)

/-- `history.Diff` (history.go). Builds key maps of previous and current
states, emits one open event per key new in current, one close event per
key gone from current, and sorts with `eventLess`. -/
def Diff (prev : Option Snapshot) (current : List PortEntry) (ts : Int) : List Event :=
  sortLe (fun a b => !eventLess b a)
    (diffOpens prev current ts ++ diffCloses prev current ts)

/-- `history.SnapshotFromEntries`. -/
def SnapshotFromEntries (entries : List PortEntry) (ts : Int) : Snapshot :=
  { timestamp := ts,
    entries := entries.map (fun e =>
      { port := e.port, protocol := e.protocol, pid := e.pid,
        process := e.process, user := e.user }) }

/-- The state of the history file on disk. `unparseable` stands for any
present file that `encoding/json` (external to this repository) rejects;
`stored d` for a present file holding the JSON encoding of `d`
(`json.Unmarshal` inverts `json.MarshalIndent`). -/
inductive FileState where
  | absent
  | unparseable
  | stored (d : Data)
deriving DecidableEq

/-- `Store.Load`: an absent file yields empty data and no error; a present
but unparseable file is a hard error; otherwise the decoded data. -/
def Load : FileState → Except GoStr Data
  | .absent => .ok { lastSnapshot := none, events := [] }
  | .unparseable => .error ("failed to parse history file".data)
  | .stored d => .ok d

/-- `Store.Save` (the directory is assumed creatable and the file writable;
write errors are outside every claim). -/
def Save (d : Data) : FileState := .stored d

/-- `Store.Record`: load, diff against the stored snapshot, append the new
events, replace the snapshot, save, and return only this call's events. -/
def Record (fs : FileState) (entries : List PortEntry) (ts : Int) :
    Except GoStr (FileState × List Event) :=
  match Load fs with
  | .error e => .error ("failed to load history: ".data ++ e)
  | .ok data =>
    let events := Diff data.lastSnapshot entries ts
    let newData : Data :=
      { lastSnapshot := some (SnapshotFromEntries entries ts),
        events := data.events ++ events }
    .ok (Save newData, events)

/-- Key of an event, for the set-complement law. -/
def eventKey (e : Event) : GoStr := portKey e.port e.protocol

/-- Keys of the current entry list. -/
def currentKeys (current : List PortEntry) : List GoStr := current.map entryKey

/-- Keys of the previous snapshot (absent = nothing). -/
def previousKeys (prev : Option Snapshot) : List GoStr :=
  (prevEntriesOf prev).map snapshotEntryKey

/-- The liveness / delivery oracle for one target PID. -/
structure ProcSys where
  alive : Nat → Bool
  deliverFails : Int → Bool

/-- The error taxonomy of `Kill`. -/
inductive KillErr where
  | protectedPID
  | notFound
  | deliveryFailed
deriving DecidableEq

/-- The `protectedPIDs` set (process.go): PIDs 0 and 1. -/
def protectedPIDs (pid : Int) : Bool := pid == 0 || pid == 1

/-- `syscall.SIGTERM`. -/
def SIGTERM : Int := 15

/-- `syscall.SIGKILL`. -/
def SIGKILL : Int := 9

/-- `RealManager.Kill` issued at probe index `i`: refuse protected PIDs
unconditionally; check liveness (`IsRunning`, probe `i`) and fail NotFound
before any signal is forwarded; then forward the signal, failing if
delivery errors. Returns the result and the list of actual (non-probe)
signals forwarded. -/
def Kill (sys : ProcSys) (i : Nat) (pid : Int) (sig : Int) :
    Except KillErr Unit × List Int :=
  if protectedPIDs pid then (.error .protectedPID, [])
  else if !(sys.alive i) then (.error .notFound, [])
  else if sys.deliverFails sig then (.error .deliveryFailed, [sig])
  else (.ok (), [sig])

/-- Poll interval of `GracefulKill`: 100ms. -/
def pollIntervalMs : Nat := 100

/-- Total wait budget of `GracefulKill`: 3 seconds. -/
def killWaitBudgetMs : Nat := 3000

/-- Number of in-loop polls before the deadline passes (idealised timing:
polls at 0ms, 100ms, …, 2900ms; at 3000ms the loop condition fails). -/
def inBudgetPolls : Nat := killWaitBudgetMs / pollIntervalMs

/-- The poll-and-sleep loop of `GracefulKill`, starting at probe index `i`
with `fuel` in-loop polls remaining; when the fuel runs out the deadline
has passed and the final `return !m.IsRunning(pid)` probe decides. -/
def waitLoop (sys : ProcSys) : Nat → Nat → Bool
  | i, 0 => !(sys.alive i)
  | i, fuel + 1 => if !(sys.alive i) then true else waitLoop sys (i + 1) fuel

/-- `RealManager.GracefulKill`: send SIGTERM via `Kill` (probe 0), then
poll liveness every 100ms up to the 3-second budget (probes 1..31, the
last at the budget boundary). Returns whether the process had exited, and
the list of actual signals sent. -/
def GracefulKill (sys : ProcSys) (pid : Int) : Except KillErr Bool × List Int :=
  match Kill sys 0 pid SIGTERM with
  | (.error e, sent) => (.error e, sent)
  | (.ok _, sent) => (.ok (waitLoop sys 1 inBudgetPolls), sent)

/-- `parseProtocol`: the NODE field contains "UDP" (case-insensitively) →
UDP, else TCP. -/
def parseProtocol (node : GoStr) : GoStr :=
  if goContainsSub (goToUpper node) ("UDP".data) then UDPStr else TCPStr

/-- The two-character arrow "->" looked for in the NAME field. -/
def arrowPat : GoStr := "->".data

/-- First block of `parseNameField`: check for a state in parentheses at
the end — extract it and strip it (trimming the remainder) when a ")"
follows the last "(". -/
def parenPhase (name0 : GoStr) : GoStr × GoStr :=
  match charLastIndex name0 '(' with
  | none => (name0, [])
  | some idx =>
    match charLastIndex name0 ')' with
    | none => (name0, [])
    | some closeParen =>
      if idx < closeParen then
        (goTrimSpace (name0.take idx), (name0.take closeParen).drop (idx + 1))
      else (name0, [])

/-- Second block of `parseNameField`: split on "->" for established
connections, keeping the local side; the state defaults to ESTABLISHED
only if none was already extracted. -/
def arrowPhase (p : GoStr × GoStr) : GoStr × GoStr :=
  match subIndex p.1 arrowPat with
  | none => p
  | some idx => (p.1.take idx, if p.2 = [] then "ESTABLISHED".data else p.2)

/-- The `portStr` computation of `parseNameField`: the text after the last
":" of the local address, or the whole of it when there is no ":". -/
def lastColonSegment (s : GoStr) : GoStr :=
  match charLastIndex s ':' with
  | none => s
  | some idx => s.drop (idx + 1)

/-- Third block of `parseNameField`: take the text after the last ":" of
the local side as the port; a bare "*" or a non-number is failure (-1);
otherwise the state defaults to LISTEN when still empty. -/
def portPhase (p : GoStr × GoStr) : Int × GoStr :=
  if lastColonSegment p.1 = ['*'] then (-1, [])
  else
    match goAtoi (lastColonSegment p.1) with
    | none => (-1, [])
    | some port => (port, if p.2 = [] then "LISTEN".data else p.2)

/-- `parseNameField`: extract the port number and connection state from the
NAME field — the three blocks of the Go function in sequence. A failed
extraction is port -1 (as in the Go source). The `proto` argument is
accepted and unused, as in the source. -/
def parseNameField (name0 : GoStr) (proto : GoStr) : Int × GoStr :=
  portPhase (arrowPhase (parenPhase name0))

/-- `parseLsofLine`: parse a single lsof output line
`COMMAND PID USER FD TYPE DEVICE SIZE/OFF NODE NAME` into a `PortEntry`;
`none` models `ok == false`. -/
def parseLsofLine (line : GoStr) : Option PortEntry :=
  let fields := goFields line
  if fields.length < 9 then none
  else
    match goAtoi (fields.getD 1 []) with
    | none => none
    | some pid =>
      let proto := parseProtocol (fields.getD 7 [])
      let ps := parseNameField (fields.getD 8 []) proto
      if ps.1 < 0 then none
      else some
        { process := fields.getD 0 []
          pid := pid
          user := fields.getD 2 []
          fd := fields.getD 3 []
          protocol := proto
          port := ps.1
          state := ps.2
          command := fields.getD 0 [] }

/-- `ParseLsofOutput`: split into lines, skip the header, trim each data
row, silently drop blank and unparseable rows, keep the rest in order. -/
def ParseLsofOutput (output : GoStr) : List PortEntry :=
  let lines := goSplitChar output '\n'
  if lines.length < 2 then []
  else (lines.drop 1).filterMap (fun l =>
    let t := goTrimSpace l
    if t = [] then none else parseLsofLine t)

/-- The numeric value of `strconv.ParseFloat` (base-10 forms with optional
sign, fraction and exponent), as an exact rational. IEEE-754 rounding,
hexadecimal floats and the textual specials Inf/NaN are outside this
model; an overflow to infinity is an error in Go (`cpu` is then zeroed by
the caller), modelled by the magnitude check below. -/
def mantissaVal (ip fp : GoStr) : ℚ :=
  (digitsToNat ip : ℚ) + (digitsToNat fp : ℚ) / (10 : ℚ) ^ fp.length

/-- Negate when the parsed sign was "-". -/
def applySign (neg : Bool) (q : ℚ) : ℚ := if neg then -q else q

/-- Values whose magnitude rounds to infinity in float64
(≥ (2^54 - 1)·2^970) make `ParseFloat` return an error. -/
def float64Overflow (q : ℚ) : Bool := decide ((2 ^ 54 - 1 : ℚ) * 2 ^ 970 ≤ |q|)

/-- Exponent-and-final stage of the float parser. -/
def goParseFloatExp (neg : Bool) (ip fp : GoStr) (rest : GoStr) : Option ℚ :=
  match rest with
  | [] =>
    let q := applySign neg (mantissaVal ip fp)
    if float64Overflow q then none else some q
  | e :: r4 =>
    if e = 'e' ∨ e = 'E' then
      let pe : Bool × GoStr :=
        if r4.head? = some '+' then (false, r4.tail)
        else if r4.head? = some '-' then (true, r4.tail)
        else (false, r4)
      if pe.2 ≠ [] ∧ pe.2.all Char.isDigit then
        let ex : Int :=
          if pe.1 then -(digitsToNat pe.2 : Int) else (digitsToNat pe.2 : Int)
        let q := applySign neg (mantissaVal ip fp * (10 : ℚ) ^ ex)
        if float64Overflow q then none else some q
      else none
    else none

/-- `strconv.ParseFloat(s, 64)` for the decimal forms (see `mantissaVal`). -/
def goParseFloat (s : GoStr) : Option ℚ :=
  match s with
  | [] => none
  | c :: rest =>
    let p : Bool × GoStr :=
      if c = '+' then (false, rest) else if c = '-' then (true, rest) else (false, s)
    let ip := p.2.takeWhile Char.isDigit
    let r1 := p.2.dropWhile Char.isDigit
    match r1 with
    | '.' :: r2 =>
      let fp := r2.takeWhile Char.isDigit
      let r3 := r2.dropWhile Char.isDigit
      if ip = [] ∧ fp = [] then none
      else goParseFloatExp p.1 ip fp r3
    | _ => if ip = [] then none else goParseFloatExp p.1 ip [] r1

/-- A parsed `lstart` timestamp ("Mon Jan 2 15:04:05 2006" layout);
`Option Lstart` with `none` models Go's zero `time.Time`. -/
structure Lstart where
  wday : Nat
  mon : Nat
  day : Nat
  hour : Nat
  minute : Nat
  second : Nat
  year : Nat
deriving DecidableEq

/-- Three-letter weekday abbreviations, Sunday first (Go's table). -/
def weekdayNames : List GoStr :=
  ["Sun".data, "Mon".data, "Tue".data, "Wed".data, "Thu".data, "Fri".data, "Sat".data]

/-- Three-letter month abbreviations (Go's table). -/
def monthNames : List GoStr :=
  ["Jan".data, "Feb".data, "Mar".data, "Apr".data, "May".data, "Jun".data,
   "Jul".data, "Aug".data, "Sep".data, "Oct".data, "Nov".data, "Dec".data]

/-- Match a three-letter abbreviation from a table (case-insensitively, as
Go's `time.Parse` lookup does); returns its index and the rest. -/
def lookupAbbrev (names : List GoStr) (s : GoStr) : Option (Nat × GoStr) :=
  match names.findIdx? (fun n => goToLower n = goToLower (s.take 3)) with
  | none => none
  | some i => if 3 ≤ s.length then some (i, s.drop 3) else none

/-- Read one or two digits (layouts "2" and "15"). -/
def getnum2 (s : GoStr) : Option (Nat × GoStr) :=
  match s with
  | [] => none
  | a :: rest =>
    if a.isDigit then
      match rest with
      | b :: rest2 =>
        if b.isDigit then some ((a.toNat - 48) * 10 + (b.toNat - 48), rest2)
        else some (a.toNat - 48, rest)
      | [] => some (a.toNat - 48, [])
    else none

/-- Read exactly two digits (zero-padded layouts "04" and "05"). -/
def getnumFixed2 (s : GoStr) : Option (Nat × GoStr) :=
  match s with
  | a :: b :: rest =>
    if a.isDigit ∧ b.isDigit then
      some ((a.toNat - 48) * 10 + (b.toNat - 48), rest)
    else none
  | _ => none

/-- Read exactly four digits (layout "2006"). -/
def getnum4 (s : GoStr) : Option (Nat × GoStr) :=
  match s with
  | a :: b :: c :: d :: rest =>
    if a.isDigit ∧ b.isDigit ∧ c.isDigit ∧ d.isDigit then
      some ((((a.toNat - 48) * 10 + (b.toNat - 48)) * 10 + (c.toNat - 48)) * 10 +
        (d.toNat - 48), rest)
    else none
  | _ => none

/-- Consume one expected literal character. -/
def expectChar (c : Char) (s : GoStr) : Option GoStr :=
  match s with
  | [] => none
  | d :: rest => if d = c then some rest else none

/-- Gregorian leap-year rule. -/
def isLeapYear (y : Nat) : Bool :=
  (y % 4 = 0) && (!(y % 100 = 0) || (y % 400 = 0))

/-- Days in a month (1..12). -/
def daysIn (mon year : Nat) : Nat :=
  if mon = 2 then (if isLeapYear year then 29 else 28)
  else if mon = 4 ∨ mon = 6 ∨ mon = 9 ∨ mon = 11 then 30
  else 31

/-- `time.Parse("Mon Jan 2 15:04:05 2006", s)`: parse the five-token
`lstart` timestamp, with Go's range validation. -/
def parseLstart (s : GoStr) : Option Lstart := do
  let (wd, s1) ← lookupAbbrev weekdayNames s
  let s2 ← expectChar ' ' s1
  let (mo, s3) ← lookupAbbrev monthNames s2
  let s4 ← expectChar ' ' s3
  let (d, s5) ← getnum2 s4
  let s6 ← expectChar ' ' s5
  let (h, s7) ← getnum2 s6
  let s8 ← expectChar ':' s7
  let (mi, s9) ← getnumFixed2 s8
  let s10 ← expectChar ':' s9
  let (sec, s11) ← getnumFixed2 s10
  let s12 ← expectChar ' ' s11
  let (y, s13) ← getnum4 s12
  if s13 = [] ∧ h < 24 ∧ mi < 60 ∧ sec < 60 ∧ 1 ≤ d ∧ d ≤ daysIn (mo + 1) y then
    some ⟨wd, mo + 1, d, h, mi, sec, y⟩
  else none

/-- `process.ProcessInfo`. `start = none` models Go's zero `time.Time`;
`cpu` is the exact rational value of the parsed float. -/
structure ProcessInfo where
  pid : Int
  ppid : Int
  name : GoStr
  command : GoStr
  user : GoStr
  start : Option Lstart
  cpu : ℚ
  memRSS : Int
  state : GoStr
  children : List Int
deriving DecidableEq

/-- `parsePsOutput`: parse
`ps -o pid=,ppid=,user=,%cpu=,rss=,lstart=,command=` output. Malformed
field counts or non-numeric pid/ppid are errors (`none`); unparseable cpu
and rss degrade to zero (rss in KB converted to bytes); an unparseable
lstart degrades to the zero time. -/
def parsePsOutput (line : GoStr) : Option ProcessInfo :=
  if (goFields line).length < 11 then none
  else
    match goAtoi ((goFields line).getD 0 []) with
    | none => none
    | some pid =>
      match goAtoi ((goFields line).getD 1 []) with
      | none => none
      | some ppid =>
        some
          { pid := pid
            ppid := ppid
            name := []
            command := goJoinSpace ((goFields line).drop 10)
            user := (goFields line).getD 2 []
            start := parseLstart (goJoinSpace (((goFields line).drop 5).take 5))
            cpu := (goParseFloat ((goFields line).getD 3 [])).getD 0
            memRSS := ((goAtoi ((goFields line).getD 4 [])).getD 0) * 1024
            state := []
            children := [] }

/-- Last path segment of a command name (`parts[len(parts)-1]`). -/
def lastPathSegment (s : GoStr) : GoStr := (goSplitChar s '/').getLast?.getD []

/-- `parseChildPIDs`: newline-separated decimal PIDs, parsed tolerantly. -/
def parseChildPIDs (out : GoStr) : List Int :=
  (goSplitChar (goTrimSpace out) '\n').filterMap (fun l =>
    let t := goTrimSpace l
    if t = [] then none else goAtoi t)

/-- Failure kinds of `GetInfo`. -/
inductive InfoErr where
  | queryFailed
  | notFound
  | parseFailed
deriving DecidableEq

/-- The three external command invocations `GetInfo` makes, as an oracle:
the primary `ps` detail query, the `ps -o comm=` short-name query, and the
`pgrep -P` children query. -/
structure InfoRunner where
  primary : Except Unit GoStr
  comm : Except Unit GoStr
  childq : Except Unit GoStr

/-- `InfoFetcher.GetInfo`: fail if the primary query fails, returns no row,
or returns a row `parsePsOutput` rejects; enrich the short name and the
children from the secondary queries, ignoring their failures. -/
def GetInfo (r : InfoRunner) : Except InfoErr ProcessInfo :=
  match r.primary with
  | .error _ => .error .queryFailed
  | .ok out =>
    if goTrimSpace out = [] then .error .notFound
    else
      match parsePsOutput (goTrimSpace out) with
      | none => .error .parseFailed
      | some info0 =>
        let info1 :=
          match r.comm with
          | .error _ => info0
          | .ok nameOut =>
            if goTrimSpace nameOut = [] then info0
            else { info0 with name := lastPathSegment (goTrimSpace nameOut) }
        let info2 :=
          match r.childq with
          | .error _ => info1
          | .ok childOut => { info1 with children := parseChildPIDs childOut }
        .ok info2

/-- The filtered-view-relevant fields of `tui.Model`. -/
structure TuiModel where
  entries : List PortEntry
  filtered : List Nat
  cursor : Int
  scrollOffset : Int
  searchQuery : GoStr
  height : Int
deriving DecidableEq

/-- `Model.visibleRows`: terminal height minus 7 reserved lines, at least 1. -/
def visibleRows (m : TuiModel) : Int :=
  if m.height - 7 < 1 then 1 else m.height - 7

/-- The per-entry match of `rebuildFiltered`: case-insensitive substring
match across process, user, command, and the decimal text of port and PID. -/
def matchesFilter (query : GoStr) (e : PortEntry) : Bool :=
  goContainsSub (goToLower e.process) query ||
    goContainsSub (goToLower e.user) query ||
    goContainsSub (goToLower e.command) query ||
    goContainsSub ((toString e.port).data) query ||
    goContainsSub ((toString e.pid).data) query

/-- `Model.adjustScroll`: pull the window to the cursor, then clamp the
scroll offset into [0, max(0, len(filtered) − visible)]. -/
def adjustScroll (m : TuiModel) : TuiModel :=
  let visible := visibleRows m
  let so1 := if m.cursor < m.scrollOffset then m.cursor else m.scrollOffset
  let so2 := if m.cursor ≥ so1 + visible then m.cursor - visible + 1 else so1
  let maxOffset0 : Int := (m.filtered.length : Int) - visible
  let maxOffset := if maxOffset0 < 0 then 0 else maxOffset0
  let so3 := if so2 > maxOffset then maxOffset else so2
  let so4 := if so3 < 0 then 0 else so3
  { m with scrollOffset := so4 }

/-- `Model.rebuildFiltered`: recompute the filtered index list (an empty
query matches everything), clamp the cursor into its bounds, and adjust
the scroll. -/
def rebuildFiltered (m : TuiModel) : TuiModel :=
  let query := goToLower m.searchQuery
  let filtered := ((m.entries.enum).filter
      (fun p => query = [] || matchesFilter query p.2)).map Prod.fst
  let cursor := if m.cursor ≥ (filtered.length : Int)
    then max 0 ((filtered.length : Int) - 1) else m.cursor
  adjustScroll { m with filtered := filtered, cursor := cursor }

theorem insertLe_perm (le : α → α → Bool) (x : α) (l : List α) :
    (insertLe le x l).Perm (x :: l) := by
  induction l with
  | nil => simp [insertLe]
  | cons y ys ih =>
    by_cases h : le x y = true
    · simp [insertLe, h]
    · have he : insertLe le x (y :: ys) = y :: insertLe le x ys := by
        simp [insertLe, h]
      rw [he]
      exact ((ih.cons y).trans (List.Perm.swap x y ys))

theorem sortLe_perm (le : α → α → Bool) (l : List α) : (sortLe le l).Perm l := by
  induction l with
  | nil => simp [sortLe]
  | cons x xs ih => exact (insertLe_perm le x (sortLe le xs)).trans (ih.cons x)

theorem mem_insertLe {le : α → α → Bool} {x a : α} {l : List α} :
    a ∈ insertLe le x l ↔ a = x ∨ a ∈ l := by
  rw [(insertLe_perm le x l).mem_iff]; simp

theorem pairwise_insertLe {le : α → α → Bool}
    (htot : ∀ a b, le a b = true ∨ le b a = true)
    (htrans : ∀ a b c, le a b = true → le b c = true → le a c = true)
    {x : α} {l : List α} (h : l.Pairwise (fun a b => le a b = true)) :
    (insertLe le x l).Pairwise (fun a b => le a b = true) := by
  induction l with
  | nil => simp [insertLe]
  | cons y ys ih =>
    rcases List.pairwise_cons.mp h with ⟨hy, hys⟩
    by_cases hxy : le x y = true
    · have he : insertLe le x (y :: ys) = x :: y :: ys := by simp [insertLe, hxy]
      rw [he]
      refine List.pairwise_cons.mpr ⟨?_, h⟩
      intro b hb
      rcases List.mem_cons.mp hb with rfl | hb
      · exact hxy
      · exact htrans x y b hxy (hy b hb)
    · have he : insertLe le x (y :: ys) = y :: insertLe le x ys := by
        simp [insertLe, hxy]
      rw [he]
      refine List.pairwise_cons.mpr ⟨?_, ih hys⟩
      intro b hb
      rcases mem_insertLe.mp hb with rfl | hb
      · rcases htot b y with hc | hc
        · exact absurd hc hxy
        · exact hc
      · exact hy b hb

theorem pairwise_sortLe (le : α → α → Bool)
    (htot : ∀ a b, le a b = true ∨ le b a = true)
    (htrans : ∀ a b c, le a b = true → le b c = true → le a c = true)
    (l : List α) :
    (sortLe le l).Pairwise (fun a b => le a b = true) := by
  induction l with
  | nil => simp [sortLe]
  | cons x xs ih => exact pairwise_insertLe htot htrans ih

theorem mapLookup_nil (k : GoStr) : mapLookup ([] : List (GoStr × α)) k = none := rfl

theorem mapLookup_cons (a : GoStr) (b : α) (l : List (GoStr × α)) (k : GoStr) :
    mapLookup ((a, b) :: l) k = if a = k then some b else mapLookup l k := by
  by_cases h : a = k
  · rw [if_pos h, mapLookup, List.find?_cons_of_pos _ (by simpa using h)]
    rfl
  · rw [if_neg h, mapLookup, List.find?_cons_of_neg _ (by simpa using h), mapLookup]

theorem upsert_of_present {m : List (GoStr × α)} {k0 : GoStr} (v : α)
    (h : m.any (fun p => p.1 = k0) = true) :
    upsert m k0 v = m.map (fun p => if p.1 = k0 then (k0, v) else p) := by
  simp [upsert, h]

theorem upsert_of_absent {m : List (GoStr × α)} {k0 : GoStr} (v : α)
    (h : m.any (fun p => p.1 = k0) = false) :
    upsert m k0 v = m ++ [(k0, v)] := by
  simp [upsert, h]

theorem fst_of_replace (k0 : GoStr) (v : α) (p : GoStr × α) :
    (if p.1 = k0 then (k0, v) else p).1 = p.1 := by
  by_cases h : p.1 = k0 <;> simp [h]

theorem keys_upsert_of_present {m : List (GoStr × α)} {k0 : GoStr} (v : α)
    (h : m.any (fun p => p.1 = k0) = true) :
    (upsert m k0 v).map Prod.fst = m.map Prod.fst := by
  rw [upsert_of_present v h, List.map_map]
  exact List.map_congr_left (fun p _ => fst_of_replace k0 v p)

theorem keys_upsert_of_absent {m : List (GoStr × α)} {k0 : GoStr} (v : α)
    (h : m.any (fun p => p.1 = k0) = false) :
    (upsert m k0 v).map Prod.fst = m.map Prod.fst ++ [k0] := by
  rw [upsert_of_absent v h]; simp

theorem not_mem_keys_of_any_false {m : List (GoStr × α)} {k0 : GoStr}
    (h : m.any (fun p => p.1 = k0) = false) : k0 ∉ m.map Prod.fst := by
  intro hc
  rcases List.mem_map.mp hc with ⟨p, hp, hpk⟩
  have : m.any (fun p => p.1 = k0) = true := List.any_eq_true.mpr ⟨p, hp, by simp [hpk]⟩
  rw [h] at this
  cases this

theorem mem_keys_upsert {m : List (GoStr × α)} {k0 k : GoStr} {v : α} :
    k ∈ (upsert m k0 v).map Prod.fst ↔ k ∈ m.map Prod.fst ∨ k = k0 := by
  cases h : m.any (fun p => p.1 = k0) with
  | true =>
    rw [keys_upsert_of_present v h]
    constructor
    · exact Or.inl
    · rintro (hk | rfl)
      · exact hk
      · rcases List.any_eq_true.mp h with ⟨p, hp, hpk⟩
        rw [decide_eq_true_eq] at hpk
        exact List.mem_map.mpr ⟨p, hp, hpk⟩
  | false => rw [keys_upsert_of_absent v h, List.mem_append, List.mem_singleton]

theorem nodup_keys_upsert {m : List (GoStr × α)} {k0 : GoStr} {v : α}
    (h : (m.map Prod.fst).Nodup) : ((upsert m k0 v).map Prod.fst).Nodup := by
  cases hp : m.any (fun p => p.1 = k0) with
  | true => rw [keys_upsert_of_present v hp]; exact h
  | false =>
    rw [keys_upsert_of_absent v hp]
    refine List.Nodup.append h (List.nodup_singleton k0) ?_
    intro a ha hb
    rcases List.mem_singleton.mp hb with rfl
    exact not_mem_keys_of_any_false hp ha

theorem any_false_bool {m : List (GoStr × α)} {k0 : GoStr}
    (h : m.any (fun p => p.1 = k0) = false) :
    (if m.any (fun p => p.1 = k0) then (some v : Option α) else none) = none := by
  rw [h]
  rfl

theorem mapLookup_replace (m : List (GoStr × α)) (k0 k : GoStr) (v : α) :
    mapLookup (m.map (fun p => if p.1 = k0 then (k0, v) else p)) k =
      if k = k0 then (if m.any (fun p => p.1 = k0) then some v else none)
      else mapLookup m k := by
  induction m with
  | nil =>
    rw [List.map_nil, mapLookup_nil]
    by_cases h : k = k0
    · rw [if_pos h, List.any_nil]
      rfl
    · rw [if_neg h]
  | cons p rest ih =>
    rcases p with ⟨a, b⟩
    rw [List.map_cons]
    by_cases ha : a = k0
    · subst ha
      have hrepl : (if (a, b).1 = a then (a, v) else (a, b)) = (a, v) := if_pos rfl
      rw [hrepl, mapLookup_cons]
      have hany : ((a, b) :: rest).any (fun p => p.1 = a) = true := by
        rw [List.any_cons]
        simp
      by_cases hk : k = a
      · rw [if_pos hk.symm, if_pos hk, hany]
        rfl
      · rw [if_neg (fun hc : a = k => hk hc.symm), ih, if_neg hk, if_neg hk,
          mapLookup_cons, if_neg (fun hc : a = k => hk hc.symm)]
    · have hrepl : (if (a, b).1 = k0 then (k0, v) else (a, b)) = (a, b) := if_neg ha
      rw [hrepl, mapLookup_cons]
      have hany : ((a, b) :: rest).any (fun p => p.1 = k0) = rest.any (fun p => p.1 = k0) := by
        rw [List.any_cons]
        simp [ha]
      by_cases hk : k = k0
      · have hak : ¬ a = k := fun hc => ha (hc.trans hk)
        rw [if_neg hak, ih, if_pos hk, if_pos hk, hany]
      · by_cases hak : a = k
        · rw [if_pos hak, if_neg hk, mapLookup_cons, if_pos hak]
        · rw [if_neg hak, ih, if_neg hk, if_neg hk, mapLookup_cons, if_neg hak]

theorem mapLookup_upsert (m : List (GoStr × α)) (k0 k : GoStr) (v : α) :
    mapLookup (upsert m k0 v) k = if k = k0 then some v else mapLookup m k := by
  cases hp : m.any (fun p => p.1 = k0) with
  | true =>
    rw [upsert_of_present v hp, mapLookup_replace, hp]
    by_cases hk : k = k0
    · rw [if_pos hk, if_pos hk]
      rfl
    · rw [if_neg hk, if_neg hk]
  | false =>
    rw [upsert_of_absent v hp]
    have hsplit : mapLookup (m ++ [(k0, v)]) k =
        ((m.find? (fun p => p.1 = k)).or (List.find? (fun p => p.1 = k) [(k0, v)])).map
          Prod.snd := by
      rw [mapLookup, List.find?_append]
    rw [hsplit]
    by_cases hk : k = k0
    · subst hk
      have hnone : m.find? (fun p => p.1 = k) = none := by
        refine List.find?_eq_none.mpr (fun p hpm hc => ?_)
        rw [decide_eq_true_eq] at hc
        exact not_mem_keys_of_any_false hp (List.mem_map.mpr ⟨p, hpm, hc⟩)
      rw [hnone, if_pos rfl, List.find?_cons_of_pos _ (by simp)]
      rfl
    · have hone : (List.find? (fun p => p.1 = k) [(k0, v)]) = none := by
        have : ¬ ((k0, v).1 = k) := fun hc : k0 = k => hk hc.symm
        rw [List.find?_cons_of_neg _ (by simpa using this), List.find?_nil]
      rw [hone, if_neg hk, Option.or_none, mapLookup]

theorem mem_pairs_upsert {m : List (GoStr × α)} {k0 : GoStr} {v : α} {p : GoStr × α}
    (h : p ∈ upsert m k0 v) : p ∈ m ∨ p = (k0, v) := by
  cases hp : m.any (fun q => q.1 = k0) with
  | true =>
    rw [upsert_of_present v hp] at h
    rcases List.mem_map.mp h with ⟨q, hq, hqe⟩
    by_cases hqk : q.1 = k0
    · right; rw [if_pos hqk] at hqe; exact hqe.symm
    · left; rw [if_neg hqk] at hqe; exact hqe ▸ hq
  | false =>
    rw [upsert_of_absent v hp] at h
    simpa using h

theorem mem_keys_foldl (l : List (GoStr × α)) :
    ∀ (m0 : List (GoStr × α)) (k : GoStr),
      (k ∈ (l.foldl (fun m kv => upsert m kv.1 kv.2) m0).map Prod.fst ↔
        k ∈ m0.map Prod.fst ∨ k ∈ l.map Prod.fst) := by
  induction l with
  | nil =>
    intro m0 k
    rw [List.foldl_nil, List.map_nil]
    constructor
    · exact Or.inl
    · rintro (h | h)
      · exact h
      · exact absurd h (List.not_mem_nil k)
  | cons kv rest ih =>
    intro m0 k
    rw [List.foldl_cons, ih, mem_keys_upsert, List.map_cons, List.mem_cons]
    tauto

theorem nodup_keys_foldl (l : List (GoStr × α)) :
    ∀ (m0 : List (GoStr × α)), (m0.map Prod.fst).Nodup →
      ((l.foldl (fun m kv => upsert m kv.1 kv.2) m0).map Prod.fst).Nodup := by
  induction l with
  | nil => intro m0 h; exact h
  | cons kv rest ih =>
    intro m0 h
    rw [List.foldl_cons]
    exact ih _ (nodup_keys_upsert h)

theorem mapLookup_foldl (l : List (GoStr × α)) :
    ∀ (m0 : List (GoStr × α)) (k : GoStr),
      mapLookup (l.foldl (fun m kv => upsert m kv.1 kv.2) m0) k =
        ((l.reverse.find? (fun kv => kv.1 = k)).map Prod.snd).or (mapLookup m0 k) := by
  induction l with
  | nil => intro m0 k; rw [List.foldl_nil, List.reverse_nil, List.find?_nil]; rfl
  | cons kv rest ih =>
    intro m0 k
    rw [List.foldl_cons, ih, List.reverse_cons, List.find?_append]
    cases hf : rest.reverse.find? (fun kv => kv.1 = k) with
    | some a => rfl
    | none =>
      by_cases hk : kv.1 = k
      · rw [List.find?_cons_of_pos _ (by simpa using hk), mapLookup_upsert,
          if_pos hk.symm]
        rfl
      · rw [List.find?_cons_of_neg _ (by simpa using hk), List.find?_nil,
          mapLookup_upsert, if_neg (fun hc : k = kv.1 => hk hc.symm)]
        rfl

theorem mem_pairs_foldl (l : List (GoStr × α)) :
    ∀ (m0 : List (GoStr × α)) (p : GoStr × α),
      p ∈ l.foldl (fun m kv => upsert m kv.1 kv.2) m0 → p ∈ m0 ∨ p ∈ l := by
  induction l with
  | nil => intro m0 p h; exact Or.inl h
  | cons kv rest ih =>
    intro m0 p h
    rw [List.foldl_cons] at h
    rcases ih _ p h with hm | hl
    · rcases mem_pairs_upsert hm with hm0 | rfl
      · exact Or.inl hm0
      · exact Or.inr (List.mem_cons_self _ _)
    · exact Or.inr (List.mem_cons_of_mem _ hl)

theorem mem_keys_buildMap {l : List (GoStr × α)} {k : GoStr} :
    k ∈ (buildMap l).map Prod.fst ↔ k ∈ l.map Prod.fst := by
  rw [buildMap, mem_keys_foldl, List.map_nil]
  constructor
  · rintro (h | h)
    · exact absurd h (List.not_mem_nil k)
    · exact h
  · exact Or.inr

theorem nodup_keys_buildMap (l : List (GoStr × α)) :
    ((buildMap l).map Prod.fst).Nodup := by
  rw [buildMap]
  exact nodup_keys_foldl l [] List.nodup_nil

theorem mapLookup_buildMap (l : List (GoStr × α)) (k : GoStr) :
    mapLookup (buildMap l) k = (l.reverse.find? (fun kv => kv.1 = k)).map Prod.snd := by
  rw [buildMap, mapLookup_foldl, mapLookup_nil, Option.or_none]

theorem mem_pairs_buildMap {l : List (GoStr × α)} {p : GoStr × α}
    (h : p ∈ buildMap l) : p ∈ l := by
  rcases mem_pairs_foldl l [] p h with hc | hc
  · cases hc
  · exact hc

theorem mapLookup_of_mem_nodup {m : List (GoStr × α)} {kv : GoStr × α}
    (hn : (m.map Prod.fst).Nodup) (h : kv ∈ m) : mapLookup m kv.1 = some kv.2 := by
  induction m with
  | nil => cases h
  | cons p rest ih =>
    rw [List.map_cons] at hn
    rcases List.pairwise_cons.mp hn with ⟨hp, hrest⟩
    rcases List.mem_cons.mp h with rfl | hmem
    · rw [show kv = (kv.1, kv.2) from rfl, mapLookup_cons, if_pos rfl]
    · have hne : p.1 ≠ kv.1 := by
        intro hc
        exact hp kv.1 (List.mem_map.mpr ⟨kv, hmem, rfl⟩) hc
      rw [show p = (p.1, p.2) from rfl, mapLookup_cons, if_neg hne]
      exact ih hrest hmem

theorem mapLookup_eq_none_iff {m : List (GoStr × α)} {k : GoStr} :
    mapLookup m k = none ↔ k ∉ m.map Prod.fst := by
  rw [mapLookup]
  constructor
  · intro h hc
    rcases List.mem_map.mp hc with ⟨p, hp, hpk⟩
    cases hfind : m.find? (fun p => p.1 = k) with
    | some a => rw [hfind] at h; cases h
    | none =>
      have := List.find?_eq_none.mp hfind p hp
      rw [decide_eq_true_eq] at this
      exact this hpk
  · intro h
    have hfind : m.find? (fun p => p.1 = k) = none := by
      refine List.find?_eq_none.mpr (fun p hp hc => ?_)
      rw [decide_eq_true_eq] at hc
      exact h (List.mem_map.mpr ⟨p, hp, hc⟩)
    rw [hfind]
    rfl

theorem mapLookup_isSome_iff {m : List (GoStr × α)} {k : GoStr} :
    (mapLookup m k).isSome = true ↔ k ∈ m.map Prod.fst := by
  constructor
  · intro h
    by_contra hc
    rw [← mapLookup_eq_none_iff] at hc
    rw [hc] at h
    cases h
  · intro h
    cases hl : mapLookup m k with
    | some a => rfl
    | none => exact absurd (mapLookup_eq_none_iff.mp hl) (fun hc => hc h)

theorem eventKey_openEvent (ts : Int) (e : PortEntry) :
    eventKey (openEvent ts e) = entryKey e := rfl

theorem eventKey_closeEvent (ts : Int) (e : SnapshotEntry) :
    eventKey (closeEvent ts e) = snapshotEntryKey e := rfl

theorem open_ne_close : EventOpen ≠ EventClose := by decide

theorem pairs_diffCurrMap {current : List PortEntry} {kv : GoStr × PortEntry}
    (h : kv ∈ diffCurrMap current) : ∃ e, e ∈ current ∧ kv = (entryKey e, e) := by
  have := mem_pairs_buildMap h
  rcases List.mem_map.mp this with ⟨e, he, hkv⟩
  exact ⟨e, he, hkv.symm⟩

theorem pairs_diffPrevMap {prev : Option Snapshot} {kv : GoStr × SnapshotEntry}
    (h : kv ∈ diffPrevMap prev) :
    ∃ e, e ∈ prevEntriesOf prev ∧ kv = (snapshotEntryKey e, e) := by
  have := mem_pairs_buildMap h
  rcases List.mem_map.mp this with ⟨e, he, hkv⟩
  exact ⟨e, he, hkv.symm⟩

theorem keys_diffCurrMap {current : List PortEntry} {k : GoStr} :
    k ∈ (diffCurrMap current).map Prod.fst ↔ k ∈ currentKeys current := by
  rw [diffCurrMap, mem_keys_buildMap, List.map_map]
  rfl

theorem keys_diffPrevMap {prev : Option Snapshot} {k : GoStr} :
    k ∈ (diffPrevMap prev).map Prod.fst ↔ k ∈ previousKeys prev := by
  rw [diffPrevMap, mem_keys_buildMap, List.map_map]
  rfl

theorem lookup_prevMap_none_iff {prev : Option Snapshot} {k : GoStr} :
    mapLookup (diffPrevMap prev) k = none ↔ k ∉ previousKeys prev := by
  rw [mapLookup_eq_none_iff]
  exact not_congr keys_diffPrevMap

theorem lookup_currMap_none_iff {current : List PortEntry} {k : GoStr} :
    mapLookup (diffCurrMap current) k = none ↔ k ∉ currentKeys current := by
  rw [mapLookup_eq_none_iff]
  exact not_congr keys_diffCurrMap

theorem isSome_eq_false_iff_none {o : Option α} : (!o.isSome) = true ↔ o = none := by
  cases o <;> simp

theorem mem_map_eventKey_diffOpens {prev : Option Snapshot} {current : List PortEntry}
    {ts : Int} {k : GoStr} :
    k ∈ (diffOpens prev current ts).map eventKey ↔
      k ∈ currentKeys current ∧ k ∉ previousKeys prev := by
  constructor
  · intro h
    rcases List.mem_map.mp h with ⟨ev, hev, hevk⟩
    rcases List.mem_map.mp hev with ⟨kv, hkv, hkve⟩
    rcases List.mem_filter.mp hkv with ⟨hkvm, hp⟩
    rcases pairs_diffCurrMap hkvm with ⟨e, he, rfl⟩
    have hk : k = entryKey e := by
      rw [← hevk, ← hkve, eventKey_openEvent]
    subst hk
    refine ⟨List.mem_map.mpr ⟨e, he, rfl⟩, ?_⟩
    exact lookup_prevMap_none_iff.mp (isSome_eq_false_iff_none.mp hp)
  · rintro ⟨hc, hnp⟩
    have : k ∈ (diffCurrMap current).map Prod.fst := keys_diffCurrMap.mpr hc
    rcases List.mem_map.mp this with ⟨kv, hkv, rfl⟩
    have hnone : mapLookup (diffPrevMap prev) kv.1 = none :=
      lookup_prevMap_none_iff.mpr hnp
    refine List.mem_map.mpr ⟨openEvent ts kv.2, ?_, ?_⟩
    · exact List.mem_map.mpr ⟨kv, List.mem_filter.mpr
        ⟨hkv, isSome_eq_false_iff_none.mpr hnone⟩, rfl⟩
    · rcases pairs_diffCurrMap hkv with ⟨e, _, rfl⟩
      rfl

theorem mem_map_eventKey_diffCloses {prev : Option Snapshot} {current : List PortEntry}
    {ts : Int} {k : GoStr} :
    k ∈ (diffCloses prev current ts).map eventKey ↔
      k ∈ previousKeys prev ∧ k ∉ currentKeys current := by
  constructor
  · intro h
    rcases List.mem_map.mp h with ⟨ev, hev, hevk⟩
    rcases List.mem_map.mp hev with ⟨kv, hkv, hkve⟩
    rcases List.mem_filter.mp hkv with ⟨hkvm, hp⟩
    rcases pairs_diffPrevMap hkvm with ⟨e, he, rfl⟩
    have hk : k = snapshotEntryKey e := by
      rw [← hevk, ← hkve, eventKey_closeEvent]
    subst hk
    refine ⟨List.mem_map.mpr ⟨e, he, rfl⟩, ?_⟩
    exact lookup_currMap_none_iff.mp (isSome_eq_false_iff_none.mp hp)
  · rintro ⟨hc, hnp⟩
    have : k ∈ (diffPrevMap prev).map Prod.fst := keys_diffPrevMap.mpr hc
    rcases List.mem_map.mp this with ⟨kv, hkv, rfl⟩
    have hnone : mapLookup (diffCurrMap current) kv.1 = none :=
      lookup_currMap_none_iff.mpr hnp
    refine List.mem_map.mpr ⟨closeEvent ts kv.2, ?_, ?_⟩
    · exact List.mem_map.mpr ⟨kv, List.mem_filter.mpr
        ⟨hkv, isSome_eq_false_iff_none.mpr hnone⟩, rfl⟩
    · rcases pairs_diffPrevMap hkv with ⟨e, _, rfl⟩
      rfl

theorem map_eventKey_diffOpens_eq_keys (prev : Option Snapshot)
    (current : List PortEntry) (ts : Int) :
    (diffOpens prev current ts).map eventKey =
      ((diffCurrMap current).filter
          (fun kv => !(mapLookup (diffPrevMap prev) kv.1).isSome)).map Prod.fst := by
  rw [diffOpens, List.map_map]
  refine List.map_congr_left (fun kv hkv => ?_)
  rcases pairs_diffCurrMap (List.mem_filter.mp hkv).1 with ⟨e, _, rfl⟩
  rfl

theorem map_eventKey_diffCloses_eq_keys (prev : Option Snapshot)
    (current : List PortEntry) (ts : Int) :
    (diffCloses prev current ts).map eventKey =
      ((diffPrevMap prev).filter
          (fun kv => !(mapLookup (diffCurrMap current) kv.1).isSome)).map Prod.fst := by
  rw [diffCloses, List.map_map]
  refine List.map_congr_left (fun kv hkv => ?_)
  rcases pairs_diffPrevMap (List.mem_filter.mp hkv).1 with ⟨e, _, rfl⟩
  rfl

theorem nodup_eventKeys_pre (prev : Option Snapshot) (current : List PortEntry)
    (ts : Int) :
    ((diffOpens prev current ts ++ diffCloses prev current ts).map eventKey).Nodup := by
  rw [List.map_append]
  refine List.Nodup.append ?_ ?_ ?_
  · rw [map_eventKey_diffOpens_eq_keys]
    exact List.Nodup.sublist
      (List.Sublist.map Prod.fst (List.filter_sublist _))
      (nodup_keys_buildMap _)
  · rw [map_eventKey_diffCloses_eq_keys]
    exact List.Nodup.sublist
      (List.Sublist.map Prod.fst (List.filter_sublist _))
      (nodup_keys_buildMap _)
  · intro a ha hb
    have h1 := mem_map_eventKey_diffOpens.mp ha
    have h2 := mem_map_eventKey_diffCloses.mp hb
    exact h1.2 h2.1

theorem diff_perm_pre (prev : Option Snapshot) (current : List PortEntry) (ts : Int) :
    (Diff prev current ts).Perm
      (diffOpens prev current ts ++ diffCloses prev current ts) :=
  sortLe_perm _ _

theorem type_of_mem_diffOpens {prev : Option Snapshot} {current : List PortEntry}
    {ts : Int} {ev : Event} (h : ev ∈ diffOpens prev current ts) :
    ev.type = EventOpen := by
  rcases List.mem_map.mp h with ⟨kv, _, rfl⟩
  rfl

theorem type_of_mem_diffCloses {prev : Option Snapshot} {current : List PortEntry}
    {ts : Int} {ev : Event} (h : ev ∈ diffCloses prev current ts) :
    ev.type = EventClose := by
  rcases List.mem_map.mp h with ⟨kv, _, rfl⟩
  rfl

theorem filter_open_pre (prev : Option Snapshot) (current : List PortEntry) (ts : Int) :
    (diffOpens prev current ts ++ diffCloses prev current ts).filter
        (fun e => decide (e.type = EventOpen)) = diffOpens prev current ts := by
  rw [List.filter_append]
  have h1 : (diffOpens prev current ts).filter (fun e => decide (e.type = EventOpen)) =
      diffOpens prev current ts :=
    List.filter_eq_self.mpr (fun ev hev => by
      rw [decide_eq_true_eq]
      exact type_of_mem_diffOpens hev)
  have h2 : (diffCloses prev current ts).filter (fun e => decide (e.type = EventOpen)) =
      [] :=
    List.filter_eq_nil_iff.mpr (fun ev hev => by
      rw [decide_eq_true_eq]
      rw [type_of_mem_diffCloses hev]
      exact fun hc => open_ne_close hc.symm)
  rw [h1, h2, List.append_nil]

theorem filter_close_pre (prev : Option Snapshot) (current : List PortEntry) (ts : Int) :
    (diffOpens prev current ts ++ diffCloses prev current ts).filter
        (fun e => decide (e.type = EventClose)) = diffCloses prev current ts := by
  rw [List.filter_append]
  have h1 : (diffOpens prev current ts).filter (fun e => decide (e.type = EventClose)) =
      [] :=
    List.filter_eq_nil_iff.mpr (fun ev hev => by
      rw [decide_eq_true_eq]
      rw [type_of_mem_diffOpens hev]
      exact open_ne_close)
  have h2 : (diffCloses prev current ts).filter (fun e => decide (e.type = EventClose)) =
      diffCloses prev current ts :=
    List.filter_eq_self.mpr (fun ev hev => by
      rw [decide_eq_true_eq]
      exact type_of_mem_diffCloses hev)
  rw [h1, h2, List.nil_append]

theorem goStrLt_irrefl : ∀ a : GoStr, goStrLt a a = false := by
  intro a
  induction a with
  | nil => rfl
  | cons x as ih => simp [goStrLt, ih]

theorem goStrLt_asymm : ∀ a b : GoStr, goStrLt a b = true → goStrLt b a = false := by
  intro a
  induction a with
  | nil =>
    intro b h
    cases b with
    | nil => cases h
    | cons y bs => rfl
  | cons x as ih =>
    intro b h
    cases b with
    | nil => cases h
    | cons y bs =>
      by_cases hxy : x = y
      · subst hxy
        rw [goStrLt, if_pos rfl] at h ⊢
        exact ih bs h
      · rw [goStrLt, if_neg hxy] at h
        rw [goStrLt, if_neg (fun hc : y = x => hxy hc.symm)]
        rw [decide_eq_true_eq] at h
        rw [decide_eq_false_iff_not]
        exact not_lt_of_gt h

theorem goStrLt_trans : ∀ a b c : GoStr,
    goStrLt a b = true → goStrLt b c = true → goStrLt a c = true := by
  intro a
  induction a with
  | nil =>
    intro b c hab hbc
    cases b with
    | nil => cases hab
    | cons y bs =>
      cases c with
      | nil => cases hbc
      | cons z cs => rfl
  | cons x as ih =>
    intro b c hab hbc
    cases b with
    | nil => cases hab
    | cons y bs =>
      cases c with
      | nil => cases hbc
      | cons z cs =>
        by_cases hxy : x = y
        · subst hxy
          rw [goStrLt, if_pos rfl] at hab
          by_cases hxz : x = z
          · subst hxz
            rw [goStrLt, if_pos rfl] at hbc ⊢
            exact ih bs cs hab hbc
          · rw [goStrLt, if_neg hxz] at hbc ⊢
            exact hbc
        · rw [goStrLt, if_neg hxy, decide_eq_true_eq] at hab
          by_cases hyz : y = z
          · have hxz : ¬ x = z := fun hc => hxy (hc.trans hyz.symm)
            rw [goStrLt, if_neg hxz, decide_eq_true_eq]
            exact hyz ▸ hab
          · rw [goStrLt, if_neg hyz, decide_eq_true_eq] at hbc
            have hlt : x < z := lt_trans hab hbc
            rw [goStrLt, if_neg (ne_of_lt hlt), decide_eq_true_eq]
            exact hlt

theorem goStrLt_connex : ∀ a b : GoStr, a ≠ b →
    goStrLt a b = true ∨ goStrLt b a = true := by
  intro a
  induction a with
  | nil =>
    intro b h
    cases b with
    | nil => exact absurd rfl h
    | cons y bs => exact Or.inl rfl
  | cons x as ih =>
    intro b h
    cases b with
    | nil => exact Or.inr rfl
    | cons y bs =>
      by_cases hxy : x = y
      · subst hxy
        have hne : as ≠ bs := fun hc => h (by rw [hc])
        rcases ih bs hne with hc | hc
        · left; rw [goStrLt, if_pos rfl]; exact hc
        · right; rw [goStrLt, if_pos rfl]; exact hc
      · rcases lt_or_gt_of_ne (show x ≠ y from hxy) with hlt | hgt
        · left
          rw [goStrLt, if_neg hxy, decide_eq_true_eq]
          exact hlt
        · right
          rw [goStrLt, if_neg (fun hc : y = x => hxy hc.symm), decide_eq_true_eq]
          exact hgt

theorem goStrLt_false_iff (x y : GoStr) :
    goStrLt x y = false ↔ (x = y ∨ goStrLt y x = true) := by
  constructor
  · intro h
    by_cases hxy : x = y
    · exact Or.inl hxy
    · rcases goStrLt_connex x y hxy with hc | hc
      · rw [h] at hc; cases hc
      · exact Or.inr hc
  · rintro (rfl | h)
    · exact goStrLt_irrefl x
    · exact goStrLt_asymm y x h

theorem eventLess_false_iff (a b : Event) :
    eventLess b a = false ↔
      (a.port < b.port ∨
        (a.port = b.port ∧ (a.type = b.type ∨ goStrLt a.type b.type = true))) := by
  by_cases hp : b.port = a.port
  · rw [eventLess, if_neg (fun hc => hc hp)]
    rw [goStrLt_false_iff]
    constructor
    · rintro (he | hlt)
      · exact Or.inr ⟨hp.symm, Or.inl he.symm⟩
      · exact Or.inr ⟨hp.symm, Or.inr hlt⟩
    · rintro (hlt | ⟨_, he | hlt⟩)
      · exact absurd hp (by intro hc; rw [hc] at hlt; exact lt_irrefl _ hlt)
      · exact Or.inl he.symm
      · exact Or.inr hlt
  · rw [eventLess, if_pos hp, decide_eq_false_iff_not]
    constructor
    · intro h
      have : a.port < b.port := lt_of_le_of_ne (not_lt.mp h) (fun hc => hp hc.symm)
      exact Or.inl this
    · rintro (hlt | ⟨he, _⟩)
      · exact not_lt_of_gt hlt
      · exact absurd he.symm hp

theorem eventLess_asymm (a b : Event) :
    eventLess a b = true → eventLess b a = false := by
  intro h
  by_cases hp : a.port ≠ b.port
  · rw [eventLess, if_pos hp, decide_eq_true_eq] at h
    rw [eventLess, if_pos (Ne.symm hp), decide_eq_false_iff_not]
    exact not_lt_of_gt h
  · rw [eventLess, if_neg hp] at h
    have hq : b.port = a.port := (not_ne_iff.mp hp).symm
    rw [eventLess, if_neg (fun hc => hc hq)]
    exact goStrLt_asymm _ _ h

theorem eventLe_total (a b : Event) :
    (!eventLess b a) = true ∨ (!eventLess a b) = true := by
  cases hb : eventLess b a with
  | false => exact Or.inl rfl
  | true =>
    right
    rw [Bool.not_eq_true']
    exact eventLess_asymm b a hb

theorem eventLe_trans (a b c : Event) :
    (!eventLess b a) = true → (!eventLess c b) = true → (!eventLess c a) = true := by
  intro hab hbc
  rw [Bool.not_eq_true'] at hab hbc ⊢
  rw [eventLess_false_iff] at hab hbc ⊢
  rcases hab with h1 | ⟨h1, h1t⟩
  · rcases hbc with h2 | ⟨h2, _⟩
    · exact Or.inl (lt_trans h1 h2)
    · exact Or.inl (h2 ▸ h1)
  · rcases hbc with h2 | ⟨h2, h2t⟩
    · exact Or.inl (h1 ▸ h2)
    · refine Or.inr ⟨h1.trans h2, ?_⟩
      rcases h1t with he1 | hl1
      · rcases h2t with he2 | hl2
        · exact Or.inl (he1.trans he2)
        · exact Or.inr (he1 ▸ hl2)
      · rcases h2t with he2 | hl2
        · exact Or.inr (he2 ▸ hl1)
        · exact Or.inr (goStrLt_trans _ _ _ hl1 hl2)

theorem length_filter_le_one_of_nodup_map {f : α → β} [DecidableEq β] {l : List α}
    (h : (l.map f).Nodup) (k : β) :
    (l.filter (fun x => decide (f x = k))).length ≤ 1 := by
  induction l with
  | nil => exact Nat.zero_le 1
  | cons x rest ih =>
    rw [List.map_cons] at h
    rcases List.pairwise_cons.mp h with ⟨hx, hrest⟩
    by_cases hk : f x = k
    · rw [List.filter_cons_of_pos (by rw [decide_eq_true_eq]; exact hk)]
      have hnil : rest.filter (fun y => decide (f y = k)) = [] := by
        refine List.filter_eq_nil_iff.mpr (fun y hy hc => ?_)
        rw [decide_eq_true_eq] at hc
        exact hx (f y) (List.mem_map.mpr ⟨y, hy, rfl⟩) (hk.trans hc.symm)
      rw [hnil]
      exact Nat.le_refl 1
    · rw [List.filter_cons_of_neg (by rw [decide_eq_true_eq]; exact hk)]
      exact ih hrest

/-- C1: for every previous snapshot (absent treated as empty) and current
entry list, the open-event keys of `Diff` are exactly keys(current) minus
keys(previous), the close-event keys exactly keys(previous) minus
keys(current), there is at most one event per distinct (port, protocol)
key, and when the key sets coincide `Diff` returns no events at all. -/
theorem diff_key_set_law (prev : Option Snapshot) (current : List PortEntry) (ts : Int) :
    (∀ k, k ∈ ((Diff prev current ts).filter
          (fun e => decide (e.type = EventOpen))).map eventKey ↔
        (k ∈ currentKeys current ∧ k ∉ previousKeys prev)) ∧
    (∀ k, k ∈ ((Diff prev current ts).filter
          (fun e => decide (e.type = EventClose))).map eventKey ↔
        (k ∈ previousKeys prev ∧ k ∉ currentKeys current)) ∧
    ((Diff prev current ts).map eventKey).Nodup ∧
    ((∀ k, k ∈ currentKeys current ↔ k ∈ previousKeys prev) →
      Diff prev current ts = []) := by
  have hperm := diff_perm_pre prev current ts
  refine ⟨?_, ?_, ?_, ?_⟩
  · intro k
    have h1 : ((Diff prev current ts).filter (fun e => decide (e.type = EventOpen))).Perm
        (diffOpens prev current ts) := by
      have := hperm.filter (fun e => decide (e.type = EventOpen))
      rw [filter_open_pre] at this
      exact this
    rw [(h1.map eventKey).mem_iff]
    exact mem_map_eventKey_diffOpens
  · intro k
    have h1 : ((Diff prev current ts).filter (fun e => decide (e.type = EventClose))).Perm
        (diffCloses prev current ts) := by
      have := hperm.filter (fun e => decide (e.type = EventClose))
      rw [filter_close_pre] at this
      exact this
    rw [(h1.map eventKey).mem_iff]
    exact mem_map_eventKey_diffCloses
  · exact (hperm.map eventKey).nodup_iff.mpr (nodup_eventKeys_pre prev current ts)
  · intro hsame
    have hopen : diffOpens prev current ts = [] := by
      rw [diffOpens]
      have : (diffCurrMap current).filter
          (fun kv => !(mapLookup (diffPrevMap prev) kv.1).isSome) = [] := by
        refine List.filter_eq_nil_iff.mpr (fun kv hkv hc => ?_)
        rw [isSome_eq_false_iff_none] at hc
        have h1 : kv.1 ∈ currentKeys current :=
          keys_diffCurrMap.mp (List.mem_map.mpr ⟨kv, hkv, rfl⟩)
        exact lookup_prevMap_none_iff.mp hc ((hsame kv.1).mp h1)
      rw [this]
      rfl
    have hclose : diffCloses prev current ts = [] := by
      rw [diffCloses]
      have : (diffPrevMap prev).filter
          (fun kv => !(mapLookup (diffCurrMap current) kv.1).isSome) = [] := by
        refine List.filter_eq_nil_iff.mpr (fun kv hkv hc => ?_)
        rw [isSome_eq_false_iff_none] at hc
        have h1 : kv.1 ∈ previousKeys prev :=
          keys_diffPrevMap.mp (List.mem_map.mpr ⟨kv, hkv, rfl⟩)
        exact lookup_currMap_none_iff.mp hc ((hsame kv.1).mpr h1)
      rw [this]
      rfl
    rw [Diff, hopen, hclose]
    rfl

/-- C2: starting from no history file, three `Record` calls with entry sets
A, B, C all succeed, each returns exactly the events it produced
(`Diff(absent, A)`, then `Diff(snapshot(A), B)`, then `Diff(snapshot(B), C)`),
and the persisted state after each call holds the concatenation of all
events so far together with a snapshot of that call's entries — prior
events are never replaced or pruned. -/
theorem record_sequence (A B C : List PortEntry) (t1 t2 t3 : Int) :
    Record FileState.absent A t1 =
      .ok (FileState.stored
        { lastSnapshot := some (SnapshotFromEntries A t1),
          events := Diff none A t1 }, Diff none A t1) ∧
    Record (FileState.stored
        { lastSnapshot := some (SnapshotFromEntries A t1),
          events := Diff none A t1 }) B t2 =
      .ok (FileState.stored
        { lastSnapshot := some (SnapshotFromEntries B t2),
          events := Diff none A t1 ++ Diff (some (SnapshotFromEntries A t1)) B t2 },
        Diff (some (SnapshotFromEntries A t1)) B t2) ∧
    Record (FileState.stored
        { lastSnapshot := some (SnapshotFromEntries B t2),
          events := Diff none A t1 ++ Diff (some (SnapshotFromEntries A t1)) B t2 }) C t3 =
      .ok (FileState.stored
        { lastSnapshot := some (SnapshotFromEntries C t3),
          events := (Diff none A t1 ++ Diff (some (SnapshotFromEntries A t1)) B t2) ++
            Diff (some (SnapshotFromEntries B t2)) C t3 },
        Diff (some (SnapshotFromEntries B t2)) C t3) := by
  refine ⟨?_, rfl, rfl⟩
  rw [Record, Load]
  rfl

/-- C4: `Store.Load` yields empty `HistoryData` and no error for an absent
history file, and a hard error — never silently empty data — for a present
but unparseable file. -/
theorem load_absent_empty_corrupt_error :
    Load FileState.absent = .ok { lastSnapshot := none, events := [] } ∧
    (∃ msg, Load FileState.unparseable = .error msg) ∧
    (∀ d, Load FileState.unparseable ≠ .ok d) := by
  refine ⟨rfl, ⟨("failed to parse history file".data), rfl⟩, ?_⟩
  intro d hc
  cases hc

/-- C10: with duplicate (port, protocol) keys in the current entry list,
`Diff` still emits at most one event per key, and the open event for a
newly opened key takes its PID, process and user from the *last* entry in
the list with that key (later duplicates overwrite earlier ones in the
lookup map). -/
theorem diff_duplicate_keys (prev : Option Snapshot) (current : List PortEntry)
    (ts : Int) (k : GoStr) :
    ((Diff prev current ts).filter (fun e => decide (eventKey e = k))).length ≤ 1 ∧
    (∀ ev, ev ∈ Diff prev current ts → ev.type = EventOpen → eventKey ev = k →
      ∃ src, current.reverse.find? (fun x => decide (entryKey x = k)) = some src ∧
        ev.pid = src.pid ∧ ev.process = src.process ∧ ev.user = src.user) := by
  constructor
  · have hnodup : ((Diff prev current ts).map eventKey).Nodup :=
      ((diff_perm_pre prev current ts).map eventKey).nodup_iff.mpr
        (nodup_eventKeys_pre prev current ts)
    exact length_filter_le_one_of_nodup_map hnodup k
  · intro ev hev htype hkey
    have hmem : ev ∈ diffOpens prev current ts ++ diffCloses prev current ts :=
      (diff_perm_pre prev current ts).mem_iff.mp hev
    rcases List.mem_append.mp hmem with hop | hcl
    · rcases List.mem_map.mp hop with ⟨kv, hkv, rfl⟩
      rcases List.mem_filter.mp hkv with ⟨hkvm, _⟩
      have hk1 : kv.1 = k := by
        rcases pairs_diffCurrMap hkvm with ⟨e, _, rfl⟩
        exact hkey
      have hlook : mapLookup (diffCurrMap current) k = some kv.2 := by
        rw [← hk1]
        exact mapLookup_of_mem_nodup (nodup_keys_buildMap _) hkvm
      rw [diffCurrMap, mapLookup_buildMap] at hlook
      have hrev : (current.map (fun e => (entryKey e, e))).reverse =
          current.reverse.map (fun e => (entryKey e, e)) := by
        rw [List.map_reverse]
      rw [hrev, List.find?_map] at hlook
      cases hfind : current.reverse.find?
          ((fun kv : GoStr × PortEntry => decide (kv.1 = k)) ∘
            (fun e => (entryKey e, e))) with
      | none =>
        rw [hfind] at hlook
        cases hlook
      | some src =>
        rw [hfind] at hlook
        have h2 : some src = some kv.2 := hlook
        have hsrc : kv.2 = src := (Option.some.inj h2).symm
        exact ⟨src, hfind, by rw [hsrc]; rfl, by rw [hsrc]; rfl, by rw [hsrc]; rfl⟩
    · have := type_of_mem_diffCloses hcl
      rw [htype] at this
      exact absurd this open_ne_close

/-- C3 counterexample: `Diff` orders equal-port ties by the event-type
*string*, and "close" < "open" lexicographically, so for previous
{53/TCP} and current {53/UDP} the two port-53 events come out close
first, open second — refuting "open before close" on equal ports. -/
theorem diff_tie_order_counterexample :
    Diff
        (some { timestamp := 0, entries :=
          [{ port := 53, protocol := TCPStr, pid := 100,
             process := "dnsmasq".data, user := "root".data }] })
        [{ port := 53, protocol := UDPStr, pid := 100, process := "dnsmasq".data,
           user := "root".data, command := [], state := [], fd := [] }] 7 =
      [{ timestamp := 7, type := EventClose, port := 53, protocol := TCPStr,
         pid := 100, process := "dnsmasq".data, user := "root".data },
       { timestamp := 7, type := EventOpen, port := 53, protocol := UDPStr,
         pid := 100, process := "dnsmasq".data, user := "root".data }] ∧
    EventClose ≠ EventOpen := by
  exact ⟨by decide, by decide⟩

/-- C3 (amended): `Diff`'s result is sorted by ascending port, with equal
ports ordered by the event-kind string — "close" before "open", the
reverse of the claimed tie order; distinct-port results are as the spec
example states: previous {80/TCP, 5432/TCP} and current {80/TCP, 3000/TCP}
give exactly open 3000 then close 5432. -/
theorem diff_sorted_by_port_then_kind (prev : Option Snapshot)
    (current : List PortEntry) (ts : Int) :
    (Diff prev current ts).Pairwise (fun a b =>
      a.port < b.port ∨
        (a.port = b.port ∧ (a.type = b.type ∨ goStrLt a.type b.type = true))) ∧
    Diff
        (some { timestamp := 0, entries :=
          [{ port := 80, protocol := TCPStr, pid := 100,
             process := "nginx".data, user := "root".data },
           { port := 5432, protocol := TCPStr, pid := 300,
             process := "postgres".data, user := "_postgres".data }] })
        [{ port := 80, protocol := TCPStr, pid := 100, process := "nginx".data,
           user := "root".data, command := [], state := [], fd := [] },
         { port := 3000, protocol := TCPStr, pid := 200, process := "node".data,
           user := "zhengda".data, command := [], state := [], fd := [] }] ts =
      [{ timestamp := ts, type := EventOpen, port := 3000, protocol := TCPStr,
         pid := 200, process := "node".data, user := "zhengda".data },
       { timestamp := ts, type := EventClose, port := 5432, protocol := TCPStr,
         pid := 300, process := "postgres".data, user := "_postgres".data }] := by
  constructor
  · have hp := pairwise_sortLe (fun a b => !eventLess b a) eventLe_total eventLe_trans
      (diffOpens prev current ts ++ diffCloses prev current ts)
    refine List.Pairwise.imp ?_ hp
    intro a b h
    refine (eventLess_false_iff a b).mp ?_
    rwa [Bool.not_eq_true'] at h
  · rfl

/-- Witness for C1: a snapshot and an entry list with identical key sets
(only the PID changed) produce no events. -/
theorem diff_key_set_law_witness :
    Diff
        (some { timestamp := 0, entries :=
          [{ port := 80, protocol := TCPStr, pid := 100,
             process := "nginx".data, user := "root".data }] })
        [{ port := 80, protocol := TCPStr, pid := 999, process := "nginx".data,
           user := "root".data, command := [], state := [], fd := [] }] 5 = [] := by
  have h := diff_key_set_law
    (some { timestamp := 0, entries :=
      [{ port := 80, protocol := TCPStr, pid := 100,
         process := "nginx".data, user := "root".data }] })
    [{ port := 80, protocol := TCPStr, pid := 999, process := "nginx".data,
       user := "root".data, command := [], state := [], fd := [] }] 5
  refine h.2.2.2 ?_
  intro k
  have hkeys : currentKeys
      [{ port := 80, protocol := TCPStr, pid := 999, process := "nginx".data,
         user := "root".data, command := [], state := [], fd := [] }] =
      previousKeys (some { timestamp := 0, entries :=
        [{ port := 80, protocol := TCPStr, pid := 100,
           process := "nginx".data, user := "root".data }] }) := by decide
  rw [hkeys]

/-- Witness for C10: two current entries sharing key 3000/TCP (PIDs 100 then
200) yield at most one event for that key, and the open event carries the
fields of the second (last) entry. -/
theorem diff_duplicate_keys_witness :
    ((Diff none
        [{ port := 3000, protocol := TCPStr, pid := 100, process := "nodeA".data,
           user := "alice".data, command := [], state := [], fd := [] },
         { port := 3000, protocol := TCPStr, pid := 200, process := "nodeB".data,
           user := "bob".data, command := [], state := [], fd := [] }] 7).filter
        (fun e => decide (eventKey e = portKey 3000 TCPStr))).length ≤ 1 ∧
    (∃ src,
      ([{ port := 3000, protocol := TCPStr, pid := 100, process := "nodeA".data,
          user := "alice".data, command := [], state := [], fd := [] },
        { port := 3000, protocol := TCPStr, pid := 200, process := "nodeB".data,
          user := "bob".data, command := [], state := [], fd := [] }] :
            List PortEntry).reverse.find?
          (fun x => decide (entryKey x = portKey 3000 TCPStr)) = some src ∧
      ({ timestamp := 7, type := EventOpen, port := 3000, protocol := TCPStr,
         pid := 200, process := "nodeB".data, user := "bob".data } : Event).pid = src.pid ∧
      ({ timestamp := 7, type := EventOpen, port := 3000, protocol := TCPStr,
         pid := 200, process := "nodeB".data, user := "bob".data } : Event).process =
        src.process ∧
      ({ timestamp := 7, type := EventOpen, port := 3000, protocol := TCPStr,
         pid := 200, process := "nodeB".data, user := "bob".data } : Event).user =
        src.user) := by
  have h := diff_duplicate_keys none
    [{ port := 3000, protocol := TCPStr, pid := 100, process := "nodeA".data,
       user := "alice".data, command := [], state := [], fd := [] },
     { port := 3000, protocol := TCPStr, pid := 200, process := "nodeB".data,
       user := "bob".data, command := [], state := [], fd := [] }] 7
    (portKey 3000 TCPStr)
  exact ⟨h.1, h.2
    { timestamp := 7, type := EventOpen, port := 3000, protocol := TCPStr,
      pid := 200, process := "nodeB".data, user := "bob".data }
    (by decide) (by decide) (by decide)⟩

theorem kill_sent_cases (sys : ProcSys) (i : Nat) (pid sig : Int) :
    (Kill sys i pid sig).2 = [] ∨ (Kill sys i pid sig).2 = [sig] := by
  rw [Kill]
  by_cases h1 : protectedPIDs pid = true
  · rw [if_pos h1]; exact Or.inl rfl
  · rw [if_neg h1]
    by_cases h2 : (!(sys.alive i)) = true
    · rw [if_pos h2]; exact Or.inl rfl
    · rw [if_neg h2]
      by_cases h3 : sys.deliverFails sig = true
      · rw [if_pos h3]; exact Or.inr rfl
      · rw [if_neg h3]; exact Or.inr rfl

theorem waitLoop_eq_true_iff (sys : ProcSys) :
    ∀ (fuel i : Nat), waitLoop sys i fuel = true ↔
      ∃ j, i ≤ j ∧ j ≤ i + fuel ∧ sys.alive j = false := by
  intro fuel
  induction fuel with
  | zero =>
    intro i
    rw [waitLoop]
    constructor
    · intro h
      refine ⟨i, Nat.le_refl i, by omega, ?_⟩
      cases hv : sys.alive i
      · rfl
      · rw [hv] at h
        exact absurd h (by decide)
    · rintro ⟨j, hij, hji, hdead⟩
      have hji2 : j = i := by omega
      rw [Bool.not_eq_true', ← hji2]
      exact hdead
  | succ fuel ih =>
    intro i
    cases ha : sys.alive i with
    | false =>
      have hw : waitLoop sys i (fuel + 1) = true := by
        rw [waitLoop, ha]
        rfl
      rw [hw]
      constructor
      · intro _
        exact ⟨i, Nat.le_refl i, by omega, ha⟩
      · intro _
        rfl
    | true =>
      have hw : waitLoop sys i (fuel + 1) = waitLoop sys (i + 1) fuel := by
        rw [waitLoop, ha]
        rfl
      rw [hw, ih (i + 1)]
      constructor
      · rintro ⟨j, hij, hji, hdead⟩
        exact ⟨j, by omega, by omega, hdead⟩
      · rintro ⟨j, hij, hji, hdead⟩
        refine ⟨j, ?_, by omega, hdead⟩
        rcases Nat.eq_or_lt_of_le hij with heq | hlt
        · exfalso
          have h2 : sys.alive j = true := heq ▸ ha
          rw [h2] at hdead
          exact absurd hdead (by decide)
        · omega

/-- C6: `Kill(0, sig)` and `Kill(1, sig)` always fail with the protected-PID
refusal regardless of liveness; for a non-protected PID that is not
running, `Kill` fails NotFound with no signal forwarded; and a signal is
forwarded only when the PID is non-protected and running. -/
theorem kill_protected_notfound_guard (sys : ProcSys) (pid sig : Int) :
    (∀ (s2 : ProcSys) (g : Int),
      Kill s2 0 0 g = (.error .protectedPID, []) ∧
      Kill s2 0 1 g = (.error .protectedPID, [])) ∧
    (protectedPIDs pid = false → sys.alive 0 = false →
      Kill sys 0 pid sig = (.error .notFound, [])) ∧
    ((Kill sys 0 pid sig).2 ≠ [] →
      protectedPIDs pid = false ∧ sys.alive 0 = true) := by
  refine ⟨fun s2 g => ⟨rfl, rfl⟩, ?_, ?_⟩
  · intro h1 h2
    rw [Kill, if_neg (by rw [h1]; exact Bool.false_ne_true),
      if_pos (by rw [h2]; rfl)]
  · intro hne
    cases hP : protectedPIDs pid with
    | true =>
      rw [Kill, if_pos hP] at hne
      exact absurd rfl hne
    | false =>
      cases hA : sys.alive 0 with
      | false =>
        rw [Kill, if_neg (by rw [hP]; exact Bool.false_ne_true),
          if_pos (by rw [hA]; rfl)] at hne
        exact absurd rfl hne
      | true => exact ⟨rfl, rfl⟩

/-- Witness for C6: with a dead-process oracle, killing PID 5 fails
NotFound with nothing forwarded, and killing PID 0 is refused as
protected. -/
theorem kill_protected_notfound_guard_witness :
    Kill { alive := fun _ => false, deliverFails := fun _ => false } 0 5 9 =
      (.error .notFound, []) ∧
    Kill { alive := fun _ => false, deliverFails := fun _ => false } 0 0 9 =
      (.error .protectedPID, []) := by
  have h := kill_protected_notfound_guard
    { alive := fun _ => false, deliverFails := fun _ => false } 5 9
  exact ⟨h.2.1 (by decide) rfl,
    (h.1 { alive := fun _ => false, deliverFails := fun _ => false } 9).1⟩

/-- C7: `GracefulKill` forwards exactly the one initial SIGTERM (and, over
all oracles and PIDs, never any further or forced signal); it returns
exited = true iff one of its liveness polls within the 3-second budget
(probes 1..31, 100ms apart, the last at the boundary) observes the process
gone; and it returns exited = false at budget expiry when the process
never exits. -/
theorem gracefulKill_budget_spec (sys : ProcSys) (pid : Int)
    (hprot : protectedPIDs pid = false) (halive : sys.alive 0 = true)
    (hdeliver : sys.deliverFails SIGTERM = false) :
    (GracefulKill sys pid).2 = [SIGTERM] ∧
    (∀ (s2 : ProcSys) (p2 : Int),
      (GracefulKill s2 p2).2 = [] ∨ (GracefulKill s2 p2).2 = [SIGTERM]) ∧
    ((GracefulKill sys pid).1 = .ok true ↔
      ∃ j, 1 ≤ j ∧ j ≤ inBudgetPolls + 1 ∧ sys.alive j = false) ∧
    ((∀ j, sys.alive j = true) → (GracefulKill sys pid).1 = .ok false) := by
  have hKill : Kill sys 0 pid SIGTERM = (.ok (), [SIGTERM]) := by
    rw [Kill, if_neg (by rw [hprot]; exact Bool.false_ne_true),
      if_neg (by rw [halive]; exact Bool.false_ne_true),
      if_neg (by rw [hdeliver]; exact Bool.false_ne_true)]
  have hGK : GracefulKill sys pid = (.ok (waitLoop sys 1 inBudgetPolls), [SIGTERM]) := by
    rw [GracefulKill, hKill]
  refine ⟨by rw [hGK], ?_, ?_, ?_⟩
  · intro s2 p2
    have hsent := kill_sent_cases s2 0 p2 SIGTERM
    rw [GracefulKill]
    rcases hK : Kill s2 0 p2 SIGTERM with ⟨res, sent⟩
    rw [hK] at hsent
    cases res with
    | error e => exact hsent
    | ok u => exact hsent
  · rw [hGK]
    constructor
    · intro h
      have hw : waitLoop sys 1 inBudgetPolls = true := Except.ok.inj h
      rcases (waitLoop_eq_true_iff sys inBudgetPolls 1).mp hw with ⟨j, h1, h2, h3⟩
      exact ⟨j, h1, by omega, h3⟩
    · rintro ⟨j, h1, h2, h3⟩
      have hw : waitLoop sys 1 inBudgetPolls = true :=
        (waitLoop_eq_true_iff sys inBudgetPolls 1).mpr ⟨j, h1, by omega, h3⟩
      rw [hw]
  · intro hall
    rw [hGK]
    cases hw : waitLoop sys 1 inBudgetPolls with
    | false => rfl
    | true =>
      rcases (waitLoop_eq_true_iff sys inBudgetPolls 1).mp hw with ⟨j, _, _, h3⟩
      rw [hall j] at h3
      cases h3

/-- Witness for C7: a process alive for the first five probes and gone at
probe 5 is seen to exit within the budget, with exactly one SIGTERM sent. -/
theorem gracefulKill_budget_spec_witness :
    (GracefulKill { alive := fun i => decide (i < 5), deliverFails := fun _ => false }
      42).2 = [SIGTERM] ∧
    (GracefulKill { alive := fun i => decide (i < 5), deliverFails := fun _ => false }
      42).1 = .ok true := by
  have h := gracefulKill_budget_spec
    { alive := fun i => decide (i < 5), deliverFails := fun _ => false } 42
    (by decide) (by decide) rfl
  exact ⟨h.1, h.2.2.1.mpr ⟨5, by decide, by decide, by decide⟩⟩

theorem charLastIndex_none {s : GoStr} {c : Char} (h : c ∉ s) :
    charLastIndex s c = none := by
  have hfind : s.reverse.findIdx? (fun x => x = c) = none := by
    refine List.findIdx?_eq_none_iff.mpr (fun x hx => ?_)
    rw [decide_eq_false_iff_not]
    intro hc
    exact h (hc ▸ List.mem_reverse.mp hx)
  rw [charLastIndex, hfind]
  rfl

theorem charLastIndex_append {xs ys : GoStr} {c : Char} (h : c ∉ ys) :
    charLastIndex (xs ++ c :: ys) c = some xs.length := by
  have h1 : (xs ++ c :: ys).reverse = (ys.reverse ++ [c]) ++ xs.reverse := by
    rw [List.reverse_append, List.reverse_cons, List.append_assoc]
  have h2 : ys.reverse.findIdx? (fun x => x = c) = none := by
    refine List.findIdx?_eq_none_iff.mpr (fun x hx => ?_)
    rw [decide_eq_false_iff_not]
    intro hc
    exact h (hc ▸ List.mem_reverse.mp hx)
  have h3 : ([c] : GoStr).findIdx? (fun x => x = c) = some 0 := by
    simp [List.findIdx?_cons]
  have h4 : (xs ++ c :: ys).reverse.findIdx? (fun x => x = c) = some ys.length := by
    rw [h1, List.findIdx?_append, List.findIdx?_append, h2, h3]
    simp
  rw [charLastIndex, h4, Option.map_some']
  congr 1
  rw [List.length_append, List.length_cons]
  omega

theorem arrowPat_eq : arrowPat = '-' :: '>' :: [] := rfl

theorem goStarts_arrow_of_head {c : Char} {rest : GoStr}
    (h2 : ∀ d, rest.head? = some d → d ≠ '>') :
    goStarts (c :: rest) arrowPat = false := by
  rw [arrowPat_eq]
  cases rest with
  | nil =>
    show (decide (c = '-') && goStarts [] ('>' :: [])) = false
    rw [show goStarts [] ('>' :: []) = false from rfl, Bool.and_false]
  | cons d r2 =>
    show (decide (c = '-') && (decide (d = '>') && goStarts r2 [])) = false
    rw [decide_eq_false_iff_not.mpr (h2 d rfl), Bool.false_and, Bool.and_false]

theorem subIndexAux_arrow_none {s : GoStr} (h : '>' ∉ s) :
    ∀ i, subIndexAux arrowPat s i = none := by
  induction s with
  | nil => intro i; rfl
  | cons c rest ih =>
    intro i
    have hhead : ∀ d, rest.head? = some d → d ≠ '>' := by
      intro d hd hc
      cases rest with
      | nil => cases hd
      | cons e r2 =>
        have : e = d := by injection hd
        exact h (by rw [← hc, ← this]; exact List.mem_cons_of_mem c (List.mem_cons_self e r2))
    rw [subIndexAux, if_neg (by rw [goStarts_arrow_of_head hhead]; exact Bool.false_ne_true)]
    exact ih (fun hm => h (List.mem_cons_of_mem c hm)) (i + 1)

theorem subIndexAux_arrow_append {xs ys : GoStr} (h : '>' ∉ xs) :
    ∀ i, subIndexAux arrowPat (xs ++ '-' :: '>' :: ys) i = some (i + xs.length) := by
  induction xs with
  | nil =>
    intro i
    have hstart : goStarts ('-' :: '>' :: ys) arrowPat = true := by
      rw [arrowPat_eq]
      show (decide ('-' = '-') && (decide ('>' = '>') && goStarts ys [])) = true
      rw [show goStarts ys [] = true from by cases ys <;> rfl]
      simp
    rw [List.nil_append, subIndexAux, if_pos hstart, List.length_nil, Nat.add_zero]
  | cons c xs2 ih =>
    intro i
    have hhead : ∀ d, (xs2 ++ '-' :: '>' :: ys).head? = some d → d ≠ '>' := by
      intro d hd hc
      cases xs2 with
      | nil =>
        rw [List.nil_append] at hd
        have : '-' = d := by injection hd
        rw [← this] at hc
        cases hc
      | cons e r2 =>
        have : e = d := by injection hd
        exact h (by rw [← hc, ← this]; exact List.mem_cons_of_mem c (List.mem_cons_self e r2))
    rw [List.cons_append, subIndexAux,
      if_neg (by rw [goStarts_arrow_of_head hhead]; exact Bool.false_ne_true),
      ih (fun hm => h (List.mem_cons_of_mem c hm)) (i + 1)]
    congr 1
    rw [List.length_cons]
    omega

theorem subIndex_arrow_none {s : GoStr} (h : '>' ∉ s) : subIndex s arrowPat = none :=
  subIndexAux_arrow_none h 0

theorem subIndex_arrow_append {xs ys : GoStr} (h : '>' ∉ xs) :
    subIndex (xs ++ '-' :: '>' :: ys) arrowPat = some xs.length := by
  rw [subIndex, subIndexAux_arrow_append h 0, Nat.zero_add]

theorem dropWhile_all_false {p : Char → Bool} {s : GoStr}
    (h : ∀ c ∈ s, p c = false) : s.dropWhile p = s := by
  cases s with
  | nil => rfl
  | cons c rest =>
    rw [List.dropWhile_cons, h c (List.mem_cons_self c rest)]
    rfl

theorem goTrimSpace_all_nonspace {s : GoStr}
    (h : ∀ c ∈ s, isGoSpace c = false) : goTrimSpace s = s := by
  rw [goTrimSpace, dropWhile_all_false h,
    dropWhile_all_false (fun c hc => h c (List.mem_reverse.mp hc)),
    List.reverse_reverse]

theorem goTrimSpace_append_space {s : GoStr} (hne : s ≠ [])
    (h : ∀ c ∈ s, isGoSpace c = false) : goTrimSpace (s ++ [' ']) = s := by
  have h1 : (s ++ [' ']).dropWhile isGoSpace = s ++ [' '] := by
    cases s with
    | nil => exact absurd rfl hne
    | cons c rest =>
      rw [List.cons_append, List.dropWhile_cons, h c (List.mem_cons_self c rest)]
      rfl
  have h2 : (s ++ [' ']).reverse = ' ' :: s.reverse := by
    rw [List.reverse_append]
    rfl
  rw [goTrimSpace, h1, h2, List.dropWhile_cons]
  rw [show isGoSpace ' ' = true from rfl, if_pos rfl,
    dropWhile_all_false (fun c hc => h c (List.mem_reverse.mp hc)),
    List.reverse_reverse]

theorem isDigit_ne_plus {c : Char} (h : c.isDigit = true) : ¬ c = '+' := by
  rintro rfl
  exact absurd h (by decide)

theorem isDigit_ne_minus {c : Char} (h : c.isDigit = true) : ¬ c = '-' := by
  rintro rfl
  exact absurd h (by decide)

theorem not_mem_of_all_digit {ds : GoStr} (h : ds.all Char.isDigit = true)
    {x : Char} (hx : x.isDigit = false) : x ∉ ds := by
  intro hm
  have := List.all_eq_true.mp h x hm
  rw [hx] at this
  cases this

theorem goAtoi_digits {ds : GoStr} (h1 : ds ≠ []) (h2 : ds.all Char.isDigit = true)
    (h3 : (digitsToNat ds : Int) ≤ 2 ^ 63 - 1) :
    goAtoi ds = some (digitsToNat ds) := by
  cases ds with
  | nil => exact absurd rfl h1
  | cons c rest =>
    have hc : c.isDigit = true := List.all_eq_true.mp h2 c (List.mem_cons_self c rest)
    rw [goAtoi]
    rw [if_neg (isDigit_ne_plus hc), if_neg (isDigit_ne_minus hc)]
    rw [if_neg (show ¬ (((false, c :: rest) : Bool × GoStr).2 = []) from
      fun hx => List.noConfusion hx)]
    rw [if_pos (show ((false, c :: rest) : Bool × GoStr).2.all Char.isDigit = true from h2)]
    rw [if_neg ?hrange]
    case hrange =>
      rintro (hlt | hgt)
      · have : (0 : Int) ≤ Int.ofNat (digitsToNat (c :: rest)) := Int.ofNat_nonneg _
        simp only [Bool.false_eq_true, if_false] at hlt
        omega
      · simp only [Bool.false_eq_true, if_false] at hgt
        rw [show Int.ofNat (digitsToNat (c :: rest)) = ((digitsToNat (c :: rest) : Int)) from rfl] at hgt
        omega
    rfl

theorem drop_append_cons (xs ys : GoStr) (c : Char) :
    (xs ++ c :: ys).drop (xs.length + 1) = ys := by
  have h : xs ++ c :: ys = (xs ++ [c]) ++ ys := by
    rw [List.append_assoc]
    rfl
  have hl : (xs ++ [c]).length = xs.length + 1 := by
    rw [List.length_append]
    rfl
  rw [h, ← hl, List.drop_left]

theorem take_append_left (xs ys : GoStr) : (xs ++ ys).take xs.length = xs :=
  List.take_left xs ys

theorem not_mem_append_cons {x c : Char} {l1 l2 : GoStr}
    (h1 : x ∉ l1) (hc : x ≠ c) (h2 : x ∉ l2) : x ∉ l1 ++ c :: l2 := by
  intro hm
  rcases List.mem_append.mp hm with hm1 | hm2
  · exact h1 hm1
  · rcases List.mem_cons.mp hm2 with rfl | hm3
    · exact hc rfl
    · exact h2 hm3

theorem digit_not_space {c : Char} (h : c.isDigit = true) : isGoSpace c = false := by
  cases hs : isGoSpace c
  · rfl
  · exfalso
    rw [isGoSpace] at hs
    simp only [Bool.or_eq_true, decide_eq_true_eq] at hs
    rcases hs with ((((((h1 | h1) | h1) | h1) | h1) | h1) | h1) | h1 <;>
      (subst h1; exact absurd h (by decide))

theorem parenPhase_no_paren {n : GoStr} (h : '(' ∉ n) : parenPhase n = (n, []) := by
  rw [parenPhase, charLastIndex_none h]

theorem arrowPhase_no_arrow {n st : GoStr} (h : '>' ∉ n) :
    arrowPhase (n, st) = (n, st) := by
  rw [arrowPhase]
  rw [show (n, st).1 = n from rfl, subIndex_arrow_none h]

theorem arrowPhase_split {xs ys st : GoStr} (h : '>' ∉ xs) :
    arrowPhase (xs ++ '-' :: '>' :: ys, st) =
      (xs, if st = [] then "ESTABLISHED".data else st) := by
  rw [arrowPhase]
  rw [show (xs ++ '-' :: '>' :: ys, st).1 = xs ++ '-' :: '>' :: ys from rfl,
    subIndex_arrow_append h]
  exact congrArg (fun z => (z, if st = [] then "ESTABLISHED".data else st))
    (take_append_left xs ('-' :: '>' :: ys))

theorem portPhase_digits {base ds st : GoStr}
    (hds1 : ds ≠ []) (hds2 : ds.all Char.isDigit = true)
    (hbound : (digitsToNat ds : Int) ≤ 2 ^ 63 - 1) :
    portPhase (base ++ ':' :: ds, st) =
      ((digitsToNat ds : Int), if st = [] then "LISTEN".data else st) := by
  have hcolon : charLastIndex (base ++ ':' :: ds) ':' = some base.length :=
    charLastIndex_append (not_mem_of_all_digit hds2 (by decide))
  have hstar : ¬ (ds = ['*']) := by
    intro hx
    exact not_mem_of_all_digit hds2 (show ('*').isDigit = false by decide)
      (hx ▸ List.mem_singleton.mpr rfl)
  have hseg : lastColonSegment (base ++ ':' :: ds) = ds := by
    rw [lastColonSegment, hcolon]
    exact drop_append_cons base ds ':'
  rw [portPhase]
  rw [show (base ++ ':' :: ds, st).1 = base ++ ':' :: ds from rfl, hseg,
    if_neg hstar, goAtoi_digits hds1 hds2 hbound]
  rfl

theorem portPhase_star {base st : GoStr} :
    portPhase (base ++ ':' :: ['*'], st) = (-1, []) := by
  have hcolon : charLastIndex (base ++ ':' :: ['*']) ':' = some base.length := by
    refine charLastIndex_append ?_
    intro hm
    rcases List.mem_singleton.mp hm with h
    cases h
  have hseg : lastColonSegment (base ++ ':' :: ['*']) = ['*'] := by
    rw [lastColonSegment, hcolon]
    exact drop_append_cons base ['*'] ':'
  rw [portPhase]
  rw [show (base ++ ':' :: ['*'], st).1 = base ++ ':' :: ['*'] from rfl, hseg,
    if_pos rfl]

theorem parenPhase_extract {pre st : GoStr} (hpre : '(' ∉ pre) (hst : '(' ∉ st) :
    parenPhase (pre ++ ' ' :: '(' :: (st ++ [')'])) =
      (goTrimSpace (pre ++ [' ']), st) := by
  have e1 : pre ++ ' ' :: '(' :: (st ++ [')']) = (pre ++ [' ']) ++ '(' :: (st ++ [')']) := by
    rw [List.append_assoc]
    rfl
  have e2 : pre ++ ' ' :: '(' :: (st ++ [')']) = (pre ++ ' ' :: '(' :: st) ++ ')' :: [] := by
    rw [List.append_assoc]
    simp
  have hidx : charLastIndex (pre ++ ' ' :: '(' :: (st ++ [')'])) '(' =
      some (pre ++ [' ']).length := by
    rw [e1]
    refine charLastIndex_append ?_
    intro hm
    rcases List.mem_append.mp hm with hm1 | hm2
    · exact hst hm1
    · rcases List.mem_singleton.mp hm2 with h
      cases h
  have hcp : charLastIndex (pre ++ ' ' :: '(' :: (st ++ [')'])) ')' =
      some (pre ++ ' ' :: '(' :: st).length := by
    rw [e2]
    refine charLastIndex_append ?_
    intro hm
    cases hm
  have hlt : (pre ++ [' ']).length < (pre ++ ' ' :: '(' :: st).length := by
    rw [List.length_append, List.length_append, List.length_cons, List.length_cons]
    simp
  have htake1 : (pre ++ ' ' :: '(' :: (st ++ [')'])).take (pre ++ [' ']).length =
      pre ++ [' '] := by
    rw [e1, take_append_left]
  have htake2 : (pre ++ ' ' :: '(' :: (st ++ [')'])).take (pre ++ ' ' :: '(' :: st).length =
      pre ++ ' ' :: '(' :: st := by
    rw [e2, take_append_left]
  have hdrop : (pre ++ ' ' :: '(' :: st).drop ((pre ++ [' ']).length + 1) = st := by
    have e3 : pre ++ ' ' :: '(' :: st = (pre ++ [' ']) ++ '(' :: st := by
      rw [List.append_assoc]
      rfl
    rw [e3, drop_append_cons]
  rw [parenPhase, hidx, hcp]
  show (if (pre ++ [' ']).length < (pre ++ ' ' :: '(' :: st).length then
      (goTrimSpace ((pre ++ ' ' :: '(' :: (st ++ [')'])).take (pre ++ [' ']).length),
        ((pre ++ ' ' :: '(' :: (st ++ [')'])).take
            (pre ++ ' ' :: '(' :: st).length).drop ((pre ++ [' ']).length + 1))
    else (pre ++ ' ' :: '(' :: (st ++ [')']), [])) = (goTrimSpace (pre ++ [' ']), st)
  rw [if_pos hlt, htake1, htake2, hdrop]

theorem parseNameField_plain {base ds : GoStr} (proto : GoStr)
    (hb1 : '(' ∉ base) (hb2 : '>' ∉ base)
    (hds1 : ds ≠ []) (hds2 : ds.all Char.isDigit = true)
    (hbound : (digitsToNat ds : Int) ≤ 2 ^ 63 - 1) :
    parseNameField (base ++ ':' :: ds) proto =
      ((digitsToNat ds : Int), "LISTEN".data) := by
  have hnp : '(' ∉ base ++ ':' :: ds :=
    not_mem_append_cons hb1 (by decide) (not_mem_of_all_digit hds2 (by decide))
  have hna : '>' ∉ base ++ ':' :: ds :=
    not_mem_append_cons hb2 (by decide) (not_mem_of_all_digit hds2 (by decide))
  rw [parseNameField, parenPhase_no_paren hnp, arrowPhase_no_arrow hna,
    portPhase_digits hds1 hds2 hbound, if_pos rfl]

theorem parseNameField_arrow {base ds rem : GoStr} (proto : GoStr)
    (hb1 : '(' ∉ base) (hb2 : '>' ∉ base) (hr1 : '(' ∉ rem)
    (hds1 : ds ≠ []) (hds2 : ds.all Char.isDigit = true)
    (hbound : (digitsToNat ds : Int) ≤ 2 ^ 63 - 1) :
    parseNameField ((base ++ ':' :: ds) ++ '-' :: '>' :: rem) proto =
      ((digitsToNat ds : Int), "ESTABLISHED".data) := by
  have hnp : '(' ∉ (base ++ ':' :: ds) ++ '-' :: '>' :: rem :=
    not_mem_append_cons
      (not_mem_append_cons hb1 (by decide) (not_mem_of_all_digit hds2 (by decide)))
      (by decide)
      (fun hm => by
        rcases List.mem_cons.mp hm with h | h
        · cases h
        · exact hr1 h)
  have hxs : '>' ∉ base ++ ':' :: ds :=
    not_mem_append_cons hb2 (by decide) (not_mem_of_all_digit hds2 (by decide))
  rw [parseNameField, parenPhase_no_paren hnp, arrowPhase_split hxs, if_pos rfl,
    portPhase_digits hds1 hds2 hbound,
    if_neg (show ¬ ("ESTABLISHED".data : GoStr) = [] from by decide)]

theorem parseNameField_paren {base ds st : GoStr} (proto : GoStr)
    (hb1 : '(' ∉ base) (hb2 : '>' ∉ base)
    (hbs : ∀ c ∈ base, isGoSpace c = false)
    (hst1 : '(' ∉ st) (hst2 : st ≠ [])
    (hds1 : ds ≠ []) (hds2 : ds.all Char.isDigit = true)
    (hbound : (digitsToNat ds : Int) ≤ 2 ^ 63 - 1) :
    parseNameField ((base ++ ':' :: ds) ++ ' ' :: '(' :: (st ++ [')'])) proto =
      ((digitsToNat ds : Int), st) := by
  have hpre : '(' ∉ base ++ ':' :: ds :=
    not_mem_append_cons hb1 (by decide) (not_mem_of_all_digit hds2 (by decide))
  have hprespace : ∀ c ∈ base ++ ':' :: ds, isGoSpace c = false := by
    intro c hc
    rcases List.mem_append.mp hc with h | h
    · exact hbs c h
    · rcases List.mem_cons.mp h with rfl | h
      · rfl
      · exact digit_not_space (List.all_eq_true.mp hds2 c h)
  have htrim : goTrimSpace ((base ++ ':' :: ds) ++ [' ']) = base ++ ':' :: ds :=
    goTrimSpace_append_space (by
      intro hx
      have : ds = [] := by
        cases base with
        | nil => injection hx
        | cons b bs => injection hx
      exact hds1 this) hprespace
  have hxs : '>' ∉ base ++ ':' :: ds :=
    not_mem_append_cons hb2 (by decide) (not_mem_of_all_digit hds2 (by decide))
  rw [parseNameField, parenPhase_extract hpre hst1, htrim, arrowPhase_no_arrow hxs,
    portPhase_digits hds1 hds2 hbound, if_neg hst2]

theorem parseNameField_arrow_paren {base ds rem st : GoStr} (proto : GoStr)
    (hb1 : '(' ∉ base) (hb2 : '>' ∉ base)
    (hbs : ∀ c ∈ base, isGoSpace c = false)
    (hr1 : '(' ∉ rem) (hrs : ∀ c ∈ rem, isGoSpace c = false)
    (hst1 : '(' ∉ st) (hst2 : st ≠ [])
    (hds1 : ds ≠ []) (hds2 : ds.all Char.isDigit = true)
    (hbound : (digitsToNat ds : Int) ≤ 2 ^ 63 - 1) :
    parseNameField (((base ++ ':' :: ds) ++ '-' :: '>' :: rem) ++
        ' ' :: '(' :: (st ++ [')'])) proto =
      ((digitsToNat ds : Int), st) := by
  have hpre : '(' ∉ (base ++ ':' :: ds) ++ '-' :: '>' :: rem :=
    not_mem_append_cons
      (not_mem_append_cons hb1 (by decide) (not_mem_of_all_digit hds2 (by decide)))
      (by decide)
      (fun hm => by
        rcases List.mem_cons.mp hm with h | h
        · cases h
        · exact hr1 h)
  have hprespace : ∀ c ∈ (base ++ ':' :: ds) ++ '-' :: '>' :: rem,
      isGoSpace c = false := by
    intro c hc
    rcases List.mem_append.mp hc with h | h
    · rcases List.mem_append.mp h with h2 | h2
      · exact hbs c h2
      · rcases List.mem_cons.mp h2 with rfl | h3
        · rfl
        · exact digit_not_space (List.all_eq_true.mp hds2 c h3)
    · rcases List.mem_cons.mp h with rfl | h2
      · rfl
      · rcases List.mem_cons.mp h2 with rfl | h3
        · rfl
        · exact hrs c h3
  have htrim : goTrimSpace (((base ++ ':' :: ds) ++ '-' :: '>' :: rem) ++ [' ']) =
      (base ++ ':' :: ds) ++ '-' :: '>' :: rem :=
    goTrimSpace_append_space (by
      intro hx
      cases hy : base ++ ':' :: ds with
      | nil =>
        cases base with
        | nil => injection hy
        | cons b bs => injection hy
      | cons z zs =>
        rw [hy] at hx
        injection hx) hprespace
  have hxs : '>' ∉ base ++ ':' :: ds :=
    not_mem_append_cons hb2 (by decide) (not_mem_of_all_digit hds2 (by decide))
  rw [parseNameField, parenPhase_extract hpre hst1, htrim, arrowPhase_split hxs,
    if_neg hst2, portPhase_digits hds1 hds2 hbound, if_neg hst2]

theorem parseNameField_star {base : GoStr} (proto : GoStr)
    (hb1 : '(' ∉ base) (hb2 : '>' ∉ base) :
    parseNameField (base ++ ':' :: ['*']) proto = (-1, []) := by
  have hnp : '(' ∉ base ++ ':' :: ['*'] :=
    not_mem_append_cons hb1 (by decide) (by decide)
  have hna : '>' ∉ base ++ ':' :: ['*'] :=
    not_mem_append_cons hb2 (by decide) (by decide)
  rw [parseNameField, parenPhase_no_paren hnp, arrowPhase_no_arrow hna, portPhase_star]

theorem parseLsofLine_isSome_iff (line : GoStr) :
    (parseLsofLine line).isSome = true ↔
      (9 ≤ (goFields line).length ∧
        (goAtoi ((goFields line).getD 1 [])).isSome = true ∧
        0 ≤ (parseNameField ((goFields line).getD 8 [])
              (parseProtocol ((goFields line).getD 7 []))).1) := by
  by_cases hlen : (goFields line).length < 9
  · have hP : parseLsofLine line = none := by
      rw [parseLsofLine, if_pos hlen]
    rw [hP]
    simp only [Option.isSome_none, Bool.false_eq_true, false_iff]
    rintro ⟨h9, _, _⟩
    omega
  · cases hat : goAtoi ((goFields line).getD 1 []) with
    | none =>
      have hP : parseLsofLine line = none := by
        rw [parseLsofLine, if_neg hlen, hat]
      rw [hP]
      simp only [Option.isSome_none, Bool.false_eq_true, false_iff]
      rintro ⟨_, h2, _⟩
      exact h2
    | some pid =>
      by_cases hport : (parseNameField ((goFields line).getD 8 [])
          (parseProtocol ((goFields line).getD 7 []))).1 < 0
      · have hP : parseLsofLine line = none := by
          rw [parseLsofLine, if_neg hlen, hat]
          exact if_pos hport
        rw [hP]
        simp only [Option.isSome_none, Bool.false_eq_true, false_iff]
        rintro ⟨_, _, h3⟩
        omega
      · have hP : (parseLsofLine line).isSome = true := by
          simp only [parseLsofLine, if_neg hlen, hat]
          rw [if_neg hport]
          rfl
        rw [hP]
        simp only [true_iff]
        refine ⟨by omega, rfl, ?_⟩
        exact le_of_not_lt hport

/-- C5 counterexample: the row `x 1 u 4u IPv4 0x1 0t0 TCP h:-1` has nine
whitespace fields, a numeric PID, and a local port token "-1" that parses
as a number, yet the parser drops the row — the source keeps a row only
when the port parses as a *nonnegative* number. -/
theorem parser_negative_port_counterexample :
    (goFields ("x 1 u 4u IPv4 0x1 0t0 TCP h:-1".data)).length = 9 ∧
    (goFields ("x 1 u 4u IPv4 0x1 0t0 TCP h:-1".data)).getD 1 [] = "1".data ∧
    goAtoi ("1".data) = some 1 ∧
    (goFields ("x 1 u 4u IPv4 0x1 0t0 TCP h:-1".data)).getD 8 [] = "h:-1".data ∧
    lastColonSegment ("h:-1".data) = "-1".data ∧
    goAtoi ("-1".data) = some (-1) ∧
    parseLsofLine ("x 1 u 4u IPv4 0x1 0t0 TCP h:-1".data) = none := by decide

/-- C5 (amended): a row yields an entry iff it has at least nine
whitespace-delimited fields, a numeric PID, and a local port that parses
as a *nonnegative* number (a bare "*" port token drops the row); dropped
rows never abort parsing of the remaining rows (the concrete conjunct runs
a garbled row before a good one). A yielded entry's port and state follow
the three address shapes: a trailing parenthesized state is extracted and
stripped; for an arrow-separated local->remote pair the port is taken from
the local side with state defaulting to ESTABLISHED only if none was
already extracted; otherwise state defaults to LISTEN. The example row
parses to nginx / 1234 / root / TCP / 80 / LISTEN. -/
theorem parser_row_and_shape_spec :
    (∀ line : GoStr, (parseLsofLine line).isSome = true ↔
      (9 ≤ (goFields line).length ∧
        (goAtoi ((goFields line).getD 1 [])).isSome = true ∧
        0 ≤ (parseNameField ((goFields line).getD 8 [])
              (parseProtocol ((goFields line).getD 7 []))).1)) ∧
    (∀ (base ds st proto : GoStr), '(' ∉ base → '>' ∉ base →
      (∀ c ∈ base, isGoSpace c = false) → '(' ∉ st → st ≠ [] →
      ds ≠ [] → ds.all Char.isDigit = true → (digitsToNat ds : Int) ≤ 2 ^ 63 - 1 →
      parseNameField ((base ++ ':' :: ds) ++ ' ' :: '(' :: (st ++ [')'])) proto =
        ((digitsToNat ds : Int), st)) ∧
    (∀ (base ds rem proto : GoStr), '(' ∉ base → '>' ∉ base → '(' ∉ rem →
      ds ≠ [] → ds.all Char.isDigit = true → (digitsToNat ds : Int) ≤ 2 ^ 63 - 1 →
      parseNameField ((base ++ ':' :: ds) ++ '-' :: '>' :: rem) proto =
        ((digitsToNat ds : Int), "ESTABLISHED".data)) ∧
    (∀ (base ds rem st proto : GoStr), '(' ∉ base → '>' ∉ base →
      (∀ c ∈ base, isGoSpace c = false) → '(' ∉ rem →
      (∀ c ∈ rem, isGoSpace c = false) → '(' ∉ st → st ≠ [] →
      ds ≠ [] → ds.all Char.isDigit = true → (digitsToNat ds : Int) ≤ 2 ^ 63 - 1 →
      parseNameField (((base ++ ':' :: ds) ++ '-' :: '>' :: rem) ++
          ' ' :: '(' :: (st ++ [')'])) proto = ((digitsToNat ds : Int), st)) ∧
    (∀ (base ds proto : GoStr), '(' ∉ base → '>' ∉ base →
      ds ≠ [] → ds.all Char.isDigit = true → (digitsToNat ds : Int) ≤ 2 ^ 63 - 1 →
      parseNameField (base ++ ':' :: ds) proto = ((digitsToNat ds : Int), "LISTEN".data)) ∧
    (∀ (base proto : GoStr), '(' ∉ base → '>' ∉ base →
      parseNameField (base ++ ':' :: ['*']) proto = (-1, [])) ∧
    ParseLsofOutput
        ("COMMAND PID USER FD TYPE DEVICE SIZE/OFF NODE NAME\ngarbage row\nnginx 1234 root 6u IPv4 0x1 0t0 TCP *:80 (LISTEN)".data) =
      [{ process := "nginx".data, pid := 1234, user := "root".data, fd := "6u".data,
         protocol := TCPStr, port := 80, state := "LISTEN".data,
         command := "nginx".data }] := by
  refine ⟨parseLsofLine_isSome_iff,
    fun base ds st proto h1 h2 h3 h4 h5 h6 h7 h8 =>
      parseNameField_paren proto h1 h2 h3 h4 h5 h6 h7 h8,
    fun base ds rem proto h1 h2 h3 h4 h5 h6 =>
      parseNameField_arrow proto h1 h2 h3 h4 h5 h6,
    fun base ds rem st proto h1 h2 h3 h4 h5 h6 h7 h8 h9 h10 =>
      parseNameField_arrow_paren proto h1 h2 h3 h4 h5 h6 h7 h8 h9 h10,
    fun base ds proto h1 h2 h3 h4 h5 =>
      parseNameField_plain proto h1 h2 h3 h4 h5,
    fun base proto h1 h2 => parseNameField_star proto h1 h2,
    by decide⟩

/-- Witness for C5: the shape clauses applied at the spec's own examples:
`*:80 (LISTEN)` → (80, LISTEN) and
`192.168.1.10:54321->93.184.216.34:443` → (54321, ESTABLISHED). -/
theorem parser_row_and_shape_spec_witness :
    parseNameField ("*:80 (LISTEN)".data) TCPStr = (80, "LISTEN".data) ∧
    parseNameField ("192.168.1.10:54321->93.184.216.34:443".data) TCPStr =
      (54321, "ESTABLISHED".data) := by
  have h := parser_row_and_shape_spec
  constructor
  · have h2 := h.2.1 ("*".data) ("80".data) ("LISTEN".data) TCPStr
      (by decide) (by decide) (by decide) (by decide) (by decide)
      (by decide) (by decide) (by decide)
    rw [show ("*:80 (LISTEN)".data : GoStr) =
        (("*".data ++ ':' :: "80".data) ++ ' ' :: '(' :: ("LISTEN".data ++ [')']))
      from by decide]
    rw [h2]
    decide
  · have h2 := h.2.2.1 ("192.168.1.10".data) ("54321".data)
      ("93.184.216.34:443".data) TCPStr
      (by decide) (by decide) (by decide) (by decide) (by decide) (by decide)
    rw [show ("192.168.1.10:54321->93.184.216.34:443".data : GoStr) =
        (("192.168.1.10".data ++ ':' :: "54321".data) ++
          '-' :: '>' :: "93.184.216.34:443".data)
      from by decide]
    rw [h2]
    decide

theorem GetInfo_error_primary {r : InfoRunner} {u : Unit}
    (h : r.primary = .error u) : GetInfo r = .error .queryFailed := by
  rw [GetInfo, h]

theorem GetInfo_notFound {r : InfoRunner} {out : GoStr}
    (h : r.primary = .ok out) (ht : goTrimSpace out = []) :
    GetInfo r = .error .notFound := by
  rw [GetInfo, h]
  exact if_pos ht

theorem GetInfo_parseFailed {r : InfoRunner} {out : GoStr}
    (h : r.primary = .ok out) (ht : ¬ goTrimSpace out = [])
    (hp : parsePsOutput (goTrimSpace out) = none) :
    GetInfo r = .error .parseFailed := by
  rw [GetInfo, h]
  exact (if_neg ht).trans (by rw [hp])

theorem GetInfo_ok {r : InfoRunner} {out : GoStr} {info0 : ProcessInfo}
    (h : r.primary = .ok out) (ht : ¬ goTrimSpace out = [])
    (hp : parsePsOutput (goTrimSpace out) = some info0) :
    ∃ info2, GetInfo r = .ok info2 := by
  rw [GetInfo, h]
  exact ⟨_, (if_neg ht).trans (by rw [hp])⟩

/-- C8 counterexample: the primary detail query succeeds and returns the
non-empty row "garbage", yet `GetInfo` fails — so `GetInfo` does *not*
fail only when the primary query fails or returns no matching row: a
present-but-malformed row (fewer than 11 fields, or non-numeric pid/ppid)
also fails the fetch. -/
theorem getInfo_malformed_row_counterexample :
    GetInfo { primary := .ok ("garbage".data), comm := .error (), childq := .error () } =
      .error .parseFailed ∧
    goTrimSpace ("garbage".data) ≠ ([] : GoStr) := by
  constructor
  · exact GetInfo_parseFailed rfl (by decide) (by decide)
  · decide

/-- C8 (amended): `GetInfo` fails iff the primary detail query itself
fails, returns no matching row, or returns a row `parsePsOutput` rejects
(fewer than 11 whitespace fields, or a non-numeric pid or ppid); whenever
a row is parsed, unparseable CPU and RSS sub-fields degrade to zero (RSS
converted from kilobytes to bytes) and an unparseable start timestamp
degrades to the zero value, without failing the whole fetch. -/
theorem getInfo_failure_and_degrade_spec (r : InfoRunner) :
    ((∃ e, GetInfo r = .error e) ↔
      ((∃ u, r.primary = .error u) ∨
        (∃ out, r.primary = .ok out ∧ goTrimSpace out = []) ∨
        (∃ out, r.primary = .ok out ∧ goTrimSpace out ≠ [] ∧
          parsePsOutput (goTrimSpace out) = none))) ∧
    (∀ line : GoStr, parsePsOutput line = none ↔
      ((goFields line).length < 11 ∨ goAtoi ((goFields line).getD 0 []) = none ∨
        goAtoi ((goFields line).getD 1 []) = none)) ∧
    (∀ line info, parsePsOutput line = some info →
      info.cpu = (goParseFloat ((goFields line).getD 3 [])).getD 0 ∧
      info.memRSS = ((goAtoi ((goFields line).getD 4 [])).getD 0) * 1024 ∧
      info.start = parseLstart (goJoinSpace (((goFields line).drop 5).take 5))) := by
  refine ⟨?_, ?_, ?_⟩
  · cases hpq : r.primary with
    | error u =>
      have hG := GetInfo_error_primary hpq
      constructor
      · intro _
        exact Or.inl ⟨u, rfl⟩
      · intro _
        exact ⟨.queryFailed, hG⟩
    | ok out =>
      by_cases htrim : goTrimSpace out = []
      · have hG := GetInfo_notFound hpq htrim
        constructor
        · intro _
          exact Or.inr (Or.inl ⟨out, rfl, htrim⟩)
        · intro _
          exact ⟨.notFound, hG⟩
      · cases hps : parsePsOutput (goTrimSpace out) with
        | none =>
          have hG := GetInfo_parseFailed hpq htrim hps
          constructor
          · intro _
            exact Or.inr (Or.inr ⟨out, rfl, htrim, hps⟩)
          · intro _
            exact ⟨.parseFailed, hG⟩
        | some info0 =>
          rcases GetInfo_ok hpq htrim hps with ⟨info2, hG⟩
          constructor
          · rintro ⟨e, he⟩
            rw [hG] at he
            exact Except.noConfusion he
          · rintro (⟨u, hu⟩ | ⟨out2, ho, ht⟩ | ⟨out2, ho, ht, hp⟩)
            · exact Except.noConfusion hu
            · have : out2 = out := (Except.ok.inj ho).symm
              subst this
              exact absurd ht htrim
            · have : out2 = out := (Except.ok.inj ho).symm
              subst this
              rw [hps] at hp
              exact Option.noConfusion hp
  · intro line
    by_cases hlen : (goFields line).length < 11
    · have hP : parsePsOutput line = none := by
        rw [parsePsOutput, if_pos hlen]
      exact ⟨fun _ => Or.inl hlen, fun _ => hP⟩
    · cases h0 : goAtoi ((goFields line).getD 0 []) with
      | none =>
        have hP : parsePsOutput line = none := by
          rw [parsePsOutput, if_neg hlen, h0]
        exact ⟨fun _ => Or.inr (Or.inl rfl), fun _ => hP⟩
      | some pid =>
        cases h1 : goAtoi ((goFields line).getD 1 []) with
        | none =>
          have hP : parsePsOutput line = none := by
            rw [parsePsOutput, if_neg hlen, h0, h1]
          exact ⟨fun _ => Or.inr (Or.inr rfl), fun _ => hP⟩
        | some ppid =>
          constructor
          · intro hc
            rw [parsePsOutput, if_neg hlen, h0, h1] at hc
            exact Option.noConfusion hc
          · rintro (h | h | h)
            · exact absurd h hlen
            · exact Option.noConfusion h
            · exact Option.noConfusion h
  · intro line info h
    by_cases hlen : (goFields line).length < 11
    · rw [parsePsOutput, if_pos hlen] at h
      exact Option.noConfusion h
    · cases h0 : goAtoi ((goFields line).getD 0 []) with
      | none =>
        rw [parsePsOutput, if_neg hlen, h0] at h
        exact Option.noConfusion h
      | some pid =>
        cases h1 : goAtoi ((goFields line).getD 1 []) with
        | none =>
          rw [parsePsOutput, if_neg hlen, h0, h1] at h
          exact Option.noConfusion h
        | some ppid =>
          rw [parsePsOutput, if_neg hlen, h0, h1] at h
          have h2 := Option.some.inj h
          refine ⟨?_, ?_, ?_⟩ <;> rw [← h2]

/-- Witness for C8: a failed primary query makes `GetInfo` fail, and a row
with unparseable cpu ("abc"), rss ("xyz") carries cpu 0 and memory 0 while
a well-formed lstart still parses. -/
theorem getInfo_failure_and_degrade_spec_witness :
    (∃ e, GetInfo { primary := .error (), comm := .error (), childq := .error () } =
      .error e) ∧
    (({ pid := 1234, ppid := 1, name := [],
        command := "/usr/sbin/nginx -g daemon".data, user := "root".data,
        start := some ⟨4, 2, 13, 10, 30, 0, 2026⟩, cpu := 0, memRSS := 0,
        state := [], children := [] } : ProcessInfo).cpu =
      (goParseFloat ((goFields
        ("1234 1 root abc xyz Thu Feb 13 10:30:00 2026 /usr/sbin/nginx -g daemon".data)).getD
          3 [])).getD 0) := by
  constructor
  · exact (getInfo_failure_and_degrade_spec
      { primary := .error (), comm := .error (), childq := .error () }).1.mpr
      (Or.inl ⟨(), rfl⟩)
  · have h := (getInfo_failure_and_degrade_spec
      { primary := .error (), comm := .error (), childq := .error () }).2.2
      ("1234 1 root abc xyz Thu Feb 13 10:30:00 2026 /usr/sbin/nginx -g daemon".data)
      { pid := 1234, ppid := 1, name := [],
        command := "/usr/sbin/nginx -g daemon".data, user := "root".data,
        start := some ⟨4, 2, 13, 10, 30, 0, 2026⟩, cpu := 0, memRSS := 0,
        state := [], children := [] }
      (by decide)
    exact h.1

/-- C9: after `rebuildFiltered`, given the system invariant that the cursor
was nonnegative, the cursor lies in [0, len(filtered)) whenever the
filtered list is non-empty, and the scroll offset lies in
[0, max(0, len(filtered) − visible rows)] unconditionally. -/
theorem rebuildFiltered_clamps (m : TuiModel) (hc : 0 ≤ m.cursor) :
    (0 < (rebuildFiltered m).filtered.length →
      0 ≤ (rebuildFiltered m).cursor ∧
      (rebuildFiltered m).cursor < ((rebuildFiltered m).filtered.length : Int)) ∧
    0 ≤ (rebuildFiltered m).scrollOffset ∧
    (rebuildFiltered m).scrollOffset ≤
      max 0 (((rebuildFiltered m).filtered.length : Int) -
        visibleRows (rebuildFiltered m)) := by
  unfold rebuildFiltered adjustScroll visibleRows
  dsimp only
  split_ifs <;> refine ⟨fun hlen => ⟨?_, ?_⟩, ?_, ?_⟩ <;> omega

/-- Witness for C9: a model whose cursor (5) and scroll offset (9) point
far past a one-element filtered list is clamped to cursor 0, offset 0. -/
theorem rebuildFiltered_clamps_witness :
    0 ≤ (rebuildFiltered
      { entries :=
          [{ port := 80, protocol := TCPStr, pid := 1, process := "nginx".data,
             user := "root".data, command := [], state := [], fd := [] }],
        filtered := [], cursor := 5, scrollOffset := 9, searchQuery := [],
        height := 20 }).cursor ∧
    (rebuildFiltered
      { entries :=
          [{ port := 80, protocol := TCPStr, pid := 1, process := "nginx".data,
             user := "root".data, command := [], state := [], fd := [] }],
        filtered := [], cursor := 5, scrollOffset := 9, searchQuery := [],
        height := 20 }).cursor <
      ((rebuildFiltered
        { entries :=
            [{ port := 80, protocol := TCPStr, pid := 1, process := "nginx".data,
               user := "root".data, command := [], state := [], fd := [] }],
          filtered := [], cursor := 5, scrollOffset := 9, searchQuery := [],
          height := 20 }).filtered.length : Int) ∧
    0 ≤ (rebuildFiltered
      { entries :=
          [{ port := 80, protocol := TCPStr, pid := 1, process := "nginx".data,
             user := "root".data, command := [], state := [], fd := [] }],
        filtered := [], cursor := 5, scrollOffset := 9, searchQuery := [],
        height := 20 }).scrollOffset := by
  have h := rebuildFiltered_clamps
    { entries :=
        [{ port := 80, protocol := TCPStr, pid := 1, process := "nginx".data,
           user := "root".data, command := [], state := [], fd := [] }],
      filtered := [], cursor := 5, scrollOffset := 9, searchQuery := [],
      height := 20 } (by decide)
  exact ⟨(h.1 (by decide)).1, (h.1 (by decide)).2, h.2.1⟩

end Whport
